import Mathlib

/-!
Verification of the thumbnail-grabber core of nginx-vod-module
(src/vod/thumb/thumb_grabber.c) against its natural-language specification.

The C code is shallowly embedded: frame descriptors and frame-list parts
become Lean structures and lists, the libavcodec decode/encode capabilities
and the pull-based frames source become explicit oracles, and each C
function becomes a pure Lean function over that data.  Machine integers
(uint32_t / uint64_t) are modelled as `Nat`; the model is faithful in the
absence of arithmetic wrap-around, which none of the verified claims
exercises.  Paths on which the C program dereferences invalid memory
(NULL `next` pointers, a frame cursor past `last_frame`, consecutive empty
parts mid-chain) are modelled as `Option.none`.
-/

namespace ThumbGrabber

/-- Status codes (vod_status_t) used by thumb_grabber.c.  `errCode n` stands
for any other concrete error value a collaborator callback may return. -/
inductive VodStatus where
  | ok
  | again
  | badData
  | unexpected
  | allocFailed
  | badRequest
  | errCode (n : Nat)
deriving DecidableEq, Repr

/-- Frame descriptor (input_frame_t): byte size, duration in track timescale
units, pts delay relative to decode order, and the key-frame flag. -/
structure InputFrame where
  size : Nat
  duration : Nat
  ptsDelay : Nat
  keyFrame : Bool
deriving DecidableEq, Repr

instance : Inhabited InputFrame := ⟨⟨0, 0, 0, false⟩⟩

/-- One frame-list part (frame_list_part_t): the slice of frame descriptors
from `first_frame` (inclusive) to `last_frame` (exclusive). -/
abbrev FrameListPart := List InputFrame

/-- The media_track_t fields consumed by the thumb grabber: the linked chain
of frame-list parts (head part is `track->frames`, the rest the `next`
chain), and the accumulated time offsets. -/
structure MediaTrack where
  parts : List FrameListPart
  clipStartTime : Nat
  firstFrameTimeOffset : Nat
deriving DecidableEq, Repr

/-- Absolute difference exactly as the source computes it:
`(pts >= requested_time) ? (pts - requested_time) : (requested_time - pts)`. -/
def absDiff (a b : Nat) : Nat :=
  if a ≥ b then a - b else b - a

/-! ### Frame selection (thumb_grabber_truncate_frames)

The C scan walks every frame of every part in link order, following
`part->next` whenever `cur_frame` reaches `last_frame`.  We realise the same
walk by annotating each frame with its (part index, offset in part) pair and
folding over the resulting list; the two walks agree whenever the parts
after the first are nonempty (an empty part in the middle of the chain makes
the C loop read a frame descriptor past `last_frame`, which is invalid). -/

/-- Annotate the frames of one part with the part index `pi` and their
offsets, starting at offset `fi`. -/
def annotatePart (pi : Nat) : Nat → List InputFrame → List (InputFrame × Nat × Nat)
  | _, [] => []
  | fi, f :: fs => (f, pi, fi) :: annotatePart pi (fi + 1) fs

/-- Annotate all frames of a part chain with part indices starting at `pi`. -/
def annotateFrom : Nat → List FrameListPart → List (InputFrame × Nat × Nat)
  | _, [] => []
  | pi, p :: rest => annotatePart pi 0 p ++ annotateFrom (pi + 1) rest

/-- All frames of the chain, each with its (part index, offset) position. -/
def annotateParts (parts : List FrameListPart) : List (InputFrame × Nat × Nat) :=
  annotateFrom 0 parts

/-- The candidate recorded by the scan: `min_index` (the future skip count),
`min_diff`, and the position of the key frame of the winning candidate
(which the C code keeps as `min_part` plus the part's truncated
`first_frame` pointer). -/
structure Candidate where
  minIndex : Nat
  minDiff : Nat
  keyPart : Nat
  keyOff : Nat
deriving DecidableEq, Repr

/-- Scan state of the frame-selection loop: running decode timestamp `dts`,
running frame index, the last key frame seen (part, offset, frame index)
and the best candidate so far.  `lastKey = none` models
`last_key_frame == NULL`; `best = none` models `min_part == NULL`
(equivalently `min_diff == ULLONG_MAX`, which every first computed
difference beats). -/
structure ScanState where
  dts : Nat
  index : Nat
  lastKey : Option (Nat × Nat × Nat)
  best : Option Candidate
deriving DecidableEq, Repr

/-- One iteration of the selection loop body for frame `x` (a frame plus its
part/offset position), mirroring the body of the `for` loop in
thumb_grabber_truncate_frames: update `last_key_frame`, compute the pts
difference, update the best candidate if strictly smaller, then advance
`dts` and the index. -/
def scanStep (req : Nat) (x : InputFrame × Nat × Nat) (st : ScanState) : ScanState :=
  let lk := if x.1.keyFrame then some (x.2.1, x.2.2, st.index) else st.lastKey
  let pts := st.dts + x.1.ptsDelay
  let diff := absDiff pts req
  let best :=
    match lk, st.best with
    | none, b => b
    | some (kpi, kfi, ki), none => some ⟨st.index - ki, diff, kpi, kfi⟩
    | some (kpi, kfi, ki), some c =>
        if diff < c.minDiff then some ⟨st.index - ki, diff, kpi, kfi⟩ else some c
  { dts := st.dts + x.1.duration, index := st.index + 1, lastKey := lk, best := best }

/-- The full selection scan over the annotated frame list. -/
def scanFrames (req : Nat) : List (InputFrame × Nat × Nat) → ScanState → ScanState
  | [], st => st
  | x :: rest, st => scanFrames req rest (scanStep req x st)

/-- The requested time adjusted by the first frame's pts delay
(`requested_time += cur_frame->pts_delay` before the loop; the C code reads
`part->first_frame` of the head part, so the head part's first frame). -/
def adjustedRequest (track : MediaTrack) (requestedTime : Nat) : Nat :=
  requestedTime + (((track.parts.headD []).head?.map (fun f => f.ptsDelay)).getD 0)

/-- The initial running decode timestamp of the scan:
`clip_start_time + first_frame_time_offset`. -/
def baseDts (track : MediaTrack) : Nat :=
  track.clipStartTime + track.firstFrameTimeOffset

/-- thumb_grabber_truncate_frames.  Returns `none` for the
`VOD_UNEXPECTED` "did not find any frames" failure, otherwise the skip
count together with the truncated part chain (`track->frames = *min_part`
with `min_part->first_frame` advanced to the winning key frame, followed by
the untouched later parts). -/
def thumb_grabber_truncate_frames (track : MediaTrack) (requestedTime : Nat) :
    Option (Nat × List FrameListPart) :=
  let req := adjustedRequest track requestedTime
  let st0 : ScanState := ⟨baseDts track, 0, none, none⟩
  let st := scanFrames req (annotateParts track.parts) st0
  match st.best with
  | none => none
  | some c =>
      some (c.minIndex,
        ((track.parts.getD c.keyPart []).drop c.keyOff) :: track.parts.drop (c.keyPart + 1))

/-! ### Buffer sizing (thumb_grabber_get_max_frame_size) -/

/-- The running-maximum update of the sizing loop:
`if (cur_frame->size > max_frame_size) max_frame_size = cur_frame->size`. -/
def sizeMax (m : Nat) (f : InputFrame) : Nat :=
  if f.size > m then f.size else m

/-- Loop of thumb_grabber_get_max_frame_size: the current part's remaining
frames, the remaining part chain, the remaining `limit` and the running
maximum.  `none` models the invalid dereference the C loop performs when it
runs off the end of the chain (`part->next == NULL`) or steps into an empty
part (the boundary check runs only once per iteration). -/
def maxFrameSizeGo : List InputFrame → List FrameListPart → Nat → Nat → Option Nat
  | _, _, 0, acc => some acc
  | [], [], _ + 1, _ => none
  | [], [] :: _, _ + 1, _ => none
  | [], (g :: gs) :: rest, lim + 1, acc =>
      maxFrameSizeGo gs rest lim (sizeMax acc g)
  | f :: fs, parts, lim + 1, acc =>
      maxFrameSizeGo fs parts lim (sizeMax acc f)

/-- thumb_grabber_get_max_frame_size over a part chain. -/
def thumb_grabber_get_max_frame_size (parts : List FrameListPart) (limit : Nat) : Option Nat :=
  match parts with
  | [] => none
  | p :: rest => maxFrameSizeGo p rest limit 0

/-! ### Decode, flush, encode, deliver (the engine)

The libavcodec calls, the frames source and the write callback are external
capabilities; we model them as oracles supplied in an environment.  A decode
call either fails (`avrc < 0`), succeeds without emitting a picture
(`got_frame == 0`) or succeeds with a picture. -/

/-- Result of one avcodec_decode_video2 call. -/
inductive DecodeResult where
  | err
  | noFrame
  | frame
deriving DecidableEq, Repr

/-- Result of the single avcodec_encode_video2 call. -/
inductive EncodeResult where
  | err
  | noPacket
  | packet (bytes : List Nat)
deriving DecidableEq, Repr

/-- One result of the frames source `read` capability: a chunk of bytes with
the frame-complete flag, the `VOD_AGAIN` suspension, or an error status. -/
inductive ReadEvent where
  | chunk (bytes : List Nat) (frameDone : Bool)
  | again
  | errStat (s : VodStatus)
deriving DecidableEq, Repr

/-- vod_memcpy(dst + pos, src, src.length) on a buffer modelled as a byte
list (faithful to the C memcpy whenever `pos + src.length ≤ dst.length`). -/
def memcpyAt (dst : List Nat) (pos : Nat) (src : List Nat) : List Nat :=
  dst.take pos ++ src ++ dst.drop (pos + src.length)

/-- Outcome of thumb_grabber_decode_frame: the returned status, the contents
of the input buffer after the function returns, the contents the decoder was
shown (`sent`), and the `got_frame` flag. -/
structure DecodeFrameOut where
  status : VodStatus
  buffer : List Nat
  sent : List Nat
  gotFrame : Bool
deriving DecidableEq, Repr

/-- thumb_grabber_decode_frame, buffer part: save the `pad` bytes following
the frame's byte range (`original_pad`), zero them, invoke decode, and copy
them back — but, exactly as in the source, the copy-back is only reached
when the decode call did not fail: on `avrc < 0` the function returns
`VOD_BAD_DATA` with the padding still zeroed.  `pad` is
VOD_BUFFER_PADDING_SIZE (defined outside this translation unit). -/
def thumb_grabber_decode_frame (pad : Nat) (frame : InputFrame) (buffer : List Nat)
    (res : DecodeResult) : DecodeFrameOut :=
  let originalPad := (buffer.drop frame.size).take pad
  let zeroed := memcpyAt buffer frame.size (List.replicate pad 0)
  match res with
  | .err => ⟨.badData, zeroed, zeroed, false⟩
  | .noFrame => ⟨.ok, memcpyAt zeroed frame.size originalPad, zeroed, false⟩
  | .frame => ⟨.ok, memcpyAt zeroed frame.size originalPad, zeroed, true⟩

/-- thumb_grabber_decode_flush: drain `missing` pending pictures with
empty-input decode calls drawn from the decoder oracle starting at call
index `idx`.  Returns the status, the remaining `missing_frames` count and
the next call index (so `result.2.2 - idx` is the number of decode calls
performed). -/
def thumb_grabber_decode_flush (oracle : Nat → DecodeResult) : Nat → Nat → VodStatus × Nat × Nat
  | 0, idx => (.ok, 0, idx)
  | n + 1, idx =>
      match oracle idx with
      | .err => (.badData, n + 1, idx + 1)
      | .noFrame => (.unexpected, n + 1, idx + 1)
      | .frame => thumb_grabber_decode_flush oracle n (idx + 1)

/-- The environment of one thumb_grabber_process invocation: the scripted
frames-source read results for this invocation, the decoder oracle (indexed
by decode-call number), the encoder's single result, the write callback's
returned status, whether vod_alloc succeeds, the scripted start_frame
statuses (entries beyond the list are VOD_OK) and the value of
VOD_BUFFER_PADDING_SIZE. -/
structure Env where
  pad : Nat
  reads : List ReadEvent
  decodeAt : Nat → DecodeResult
  encode : EncodeResult
  writeStatus : VodStatus
  allocOk : Bool
  starts : List VodStatus

/-- Observable events of a run, in order: frame acquisition started, scratch
frame buffer allocated, full-frame decode call (with the bytes shown to the
decoder and whether they came directly from the source rather than the
scratch buffer), empty-input flush decode call, encode call, and delivery
callback invocation. -/
inductive TraceEvent where
  | startFrame (f : InputFrame)
  | allocBuffer (n : Nat)
  | decodeCall (sent : List Nat) (direct : Bool) (f : InputFrame)
  | flushCall
  | encodeCall
  | deliver (bytes : List Nat)
deriving DecidableEq, Repr

/-- thumb_grabber_state_t, minus the fixed request/callback context and the
opaque codec handles: the cursor into the truncated frame chain
(`curPart` holds the frames from `cur_frame` to the current part's
`last_frame`, `nextParts` the rest of the chain), the counters and flags,
and the scratch frame buffer.  `decodeIdx`/`startIdx` count the decoder and
start_frame capability calls made so far and index their oracles. -/
structure GrabberState where
  curPart : List InputFrame
  nextParts : List FrameListPart
  skipCount : Nat
  firstTime : Bool
  frameStarted : Bool
  dts : Nat
  missingFrames : Nat
  maxFrameSize : Nat
  frameBuffer : Option (List Nat)
  curFramePos : Nat
  decodeIdx : Nat
  startIdx : Nat
deriving DecidableEq, Repr

/-- thumb_grabber_write_frame: flush any pending decoder latency, run the
encoder, and on a produced packet invoke the write callback once with the
packet bytes, returning the callback's status. -/
def thumb_grabber_write_frame (env : Env) (s : GrabberState) (tr : List TraceEvent) :
    VodStatus × GrabberState × List TraceEvent :=
  let fl :=
    if s.missingFrames > 0 then
      thumb_grabber_decode_flush env.decodeAt s.missingFrames s.decodeIdx
    else (.ok, s.missingFrames, s.decodeIdx)
  let s1 := { s with missingFrames := fl.2.1, decodeIdx := fl.2.2 }
  let tr1 := tr ++ List.replicate (fl.2.2 - s.decodeIdx) TraceEvent.flushCall
  if fl.1 ≠ .ok then (fl.1, s1, tr1)
  else
    let tr2 := tr1 ++ [TraceEvent.encodeCall]
    match env.encode with
    | .err => (.unexpected, s1, tr2)
    | .noPacket => (.unexpected, s1, tr2)
    | .packet bs => (env.writeStatus, s1, tr2 ++ [TraceEvent.deliver bs])

/-- Starting the current frame via the frames source capability
(`frames_source->start_frame`): consult the scripted start status, record
the acquisition event, and either return the failure (`inl`) or continue
with the current frame (`inr`).  `none` models starting a frame of an empty
part (the frame cursor would point past `last_frame`). -/
def startFrameStep (env : Env) (s1 : GrabberState) (tr : List TraceEvent) :
    Option ((VodStatus × GrabberState × List TraceEvent) ⊕
      (GrabberState × List TraceEvent × InputFrame)) :=
  match s1.curPart with
  | [] => none
  | f :: _ =>
      let rc := env.starts.getD s1.startIdx .ok
      let s2 := { s1 with startIdx := s1.startIdx + 1 }
      let tr2 := tr ++ [TraceEvent.startFrame f]
      if rc ≠ .ok then some (.inl (rc, s2, tr2))
      else some (.inr ({ s2 with frameStarted := true }, tr2, f))

/-- Frame-start phase at the top of the thumb_grabber_process loop: advance
to the next part when the cursor is exhausted, then start the frame via the
frames source.  `inl` is an immediate return (start_frame failed), `inr`
continues with the current frame; `none` models the invalid dereferences of
an exhausted chain or an empty part. -/
def startPhase (env : Env) (s : GrabberState) (tr : List TraceEvent) :
    Option ((VodStatus × GrabberState × List TraceEvent) ⊕
      (GrabberState × List TraceEvent × InputFrame)) :=
  if s.frameStarted then
    match s.curPart with
    | [] => none
    | f :: _ => some (.inr (s, tr, f))
  else
    match s.curPart with
    | [] =>
        match s.nextParts with
        | [] => none
        | p :: rest => startFrameStep env { s with curPart := p, nextParts := rest } tr
    | _ :: _ => startFrameStep env s tr

/-- The thumb_grabber_process loop.  `pd` is the local `processed_data`
flag; the recursion consumes the scripted read results, an empty `reads`
list meaning the source has nothing further to report now (the VOD_AGAIN
answer).  Returns the status together with the final state and the run's
event trace; `none` marks paths where the C code dereferences invalid
memory. -/
def processGo (env : Env) : List ReadEvent → GrabberState → Bool → List TraceEvent →
    Option (VodStatus × GrabberState × List TraceEvent)
  | [], s, pd, tr =>
      match startPhase env s tr with
      | none => none
      | some (.inl r) => some r
      | some (.inr (s1, tr1, _)) =>
          if !pd && !s1.firstTime then some (.badData, s1, tr1)
          else some (.again, { s1 with firstTime := false }, tr1)
  | .again :: _, s, pd, tr =>
      match startPhase env s tr with
      | none => none
      | some (.inl r) => some r
      | some (.inr (s1, tr1, _)) =>
          if !pd && !s1.firstTime then some (.badData, s1, tr1)
          else some (.again, { s1 with firstTime := false }, tr1)
  | .errStat st :: _, s, _pd, tr =>
      match startPhase env s tr with
      | none => none
      | some (.inl r) => some r
      | some (.inr (s1, tr1, _)) => some (st, s1, tr1)
  | .chunk bytes frameDone :: rest, s, _pd, tr =>
      match startPhase env s tr with
      | none => none
      | some (.inl r) => some r
      | some (.inr (s1, tr1, f)) =>
          if !frameDone then
            match s1.frameBuffer with
            | none =>
                if env.allocOk then
                  let sz := s1.maxFrameSize + env.pad
                  let buf := List.replicate sz 0
                  let tr2 := tr1 ++ [TraceEvent.allocBuffer sz]
                  let s2 := { s1 with
                    frameBuffer := some (memcpyAt buf s1.curFramePos bytes),
                    curFramePos := s1.curFramePos + bytes.length }
                  processGo env rest s2 true tr2
                else some (.allocFailed, s1, tr1)
            | some buf =>
                let s2 := { s1 with
                  frameBuffer := some (memcpyAt buf s1.curFramePos bytes),
                  curFramePos := s1.curFramePos + bytes.length }
                processGo env rest s2 true tr1
          else
            let assembled : Option (List Nat × Bool × GrabberState) :=
              if s1.curFramePos ≠ 0 then
                match s1.frameBuffer with
                | none => none
                | some buf =>
                    some (memcpyAt buf s1.curFramePos bytes, false,
                      { s1 with curFramePos := 0 })
              else some (bytes, true, s1)
            match assembled with
            | none => none
            | some (inBuf, direct, s2) =>
                let res := env.decodeAt s2.decodeIdx
                let dout := thumb_grabber_decode_frame env.pad f inBuf res
                let s3 := { s2 with
                  decodeIdx := s2.decodeIdx + 1,
                  dts := s2.dts + f.duration,
                  missingFrames := s2.missingFrames +
                    (if dout.status = .ok && !dout.gotFrame then 1 else 0),
                  frameBuffer := if direct then s2.frameBuffer else some dout.buffer }
                let tr2 := tr1 ++ [TraceEvent.decodeCall dout.sent direct f]
                if dout.status ≠ .ok then some (dout.status, s3, tr2)
                else if s3.skipCount = 0 then some (thumb_grabber_write_frame env s3 tr2)
                else
                  processGo env rest
                    { s3 with skipCount := s3.skipCount - 1,
                              curPart := s3.curPart.tail,
                              frameStarted := false }
                    true tr2

/-- thumb_grabber_process: one invocation of the engine, starting with the
per-invocation `processed_data` flag clear and an empty trace. -/
def thumb_grabber_process (env : Env) (s : GrabberState) :
    Option (VodStatus × GrabberState × List TraceEvent) :=
  processGo env env.reads s false []

/-! ### Setup (thumb_grabber_init_state) -/

/-- Resource-acquisition events of thumb_grabber_init_state, in program
order: the state allocation, the cleanup registration, decoder and encoder
initialisation, and the decoded-picture (AVFrame) allocation. -/
inductive InitEvent where
  | allocState
  | cleanupAdd
  | initDecoder
  | initEncoder
  | allocDecodedFrame
deriving DecidableEq, Repr

/-- Environment of thumb_grabber_init_state: whether a decoder is registered
for the track's codec, and the outcomes of the allocations and of the
decoder/encoder initialisations. -/
structure InitEnv where
  decoderAvailable : Bool
  stateAllocOk : Bool
  cleanupAddOk : Bool
  decoderInitStatus : VodStatus
  encoderInitStatus : VodStatus
  frameAllocOk : Bool

/-- thumb_grabber_init_state: check decoder availability, truncate the
frames (selection), then allocate and initialise all decode resources in
order, recording each acquisition step.  On success the engine state is
built exactly as in the source.  `none` again marks paths on which the C
code would read invalid memory. -/
def thumb_grabber_init_state (env : InitEnv) (track : MediaTrack) (requestedTime : Nat) :
    Option (VodStatus × List InitEvent × Option GrabberState) :=
  if !env.decoderAvailable then some (.badRequest, [], none)
  else
    match thumb_grabber_truncate_frames track requestedTime with
    | none => some (.unexpected, [], none)
    | some (frameIndex, newParts) =>
        let ev1 := [InitEvent.allocState]
        if !env.stateAllocOk then some (.allocFailed, ev1, none)
        else
          let ev2 := ev1 ++ [InitEvent.cleanupAdd]
          if !env.cleanupAddOk then some (.allocFailed, ev2, none)
          else
            let ev3 := ev2 ++ [InitEvent.initDecoder]
            if env.decoderInitStatus ≠ .ok then some (env.decoderInitStatus, ev3, none)
            else
              let ev4 := ev3 ++ [InitEvent.initEncoder]
              if env.encoderInitStatus ≠ .ok then some (env.encoderInitStatus, ev4, none)
              else
                let ev5 := ev4 ++ [InitEvent.allocDecodedFrame]
                if !env.frameAllocOk then some (.allocFailed, ev5, none)
                else
                  match thumb_grabber_get_max_frame_size newParts (frameIndex + 1) with
                  | none => none
                  | some mfs =>
                      match newParts with
                      | [] => none
                      | p0 :: restParts =>
                          some (.ok, ev5, some
                            { curPart := p0
                              nextParts := restParts
                              skipCount := frameIndex
                              firstTime := true
                              frameStarted := false
                              dts := 0
                              missingFrames := 0
                              maxFrameSize := mfs
                              frameBuffer := none
                              curFramePos := 0
                              decodeIdx := 0
                              startIdx := 0 })

/-! ### Specification-side helper functions

These express the quantities the specification talks about (presentation
times, distances, key-frame visibility) directly over the flattened frame
sequence, independently of the scan's incremental bookkeeping. -/

/-- Forget the position annotations. -/
def framesOf (pre : List (InputFrame × Nat × Nat)) : List InputFrame :=
  pre.map (fun x => x.1)

/-- Decode timestamp of frame `i`: the base timestamp
(clip_start_time + first_frame_time_offset) plus the durations of all
earlier frames. -/
def dtsAt (base : Nat) (l : List InputFrame) (i : Nat) : Nat :=
  base + ((l.take i).map (fun f => f.duration)).sum

/-- Presentation timestamp of frame `i`: its decode timestamp plus its pts
delay. -/
def ptsAt (base : Nat) (l : List InputFrame) (i : Nat) : Nat :=
  dtsAt base l i + (((l.get? i).map (fun f => f.ptsDelay)).getD 0)

/-- Distance of frame `i`'s presentation time from the adjusted requested
time `req`. -/
def diffAt (base req : Nat) (l : List InputFrame) (i : Nat) : Nat :=
  absDiff (ptsAt base l i) req

/-- Whether a key frame occurs at or before index `i`. -/
def keySeenB (l : List InputFrame) : Nat → Bool
  | 0 => (l.get? 0).any (fun f => f.keyFrame)
  | i + 1 => keySeenB l i || (l.get? (i + 1)).any (fun f => f.keyFrame)

/-- Index of the nearest key frame at or before index `i`, if any. -/
def lastKeyBefore (l : List InputFrame) : Nat → Option Nat
  | 0 => if (l.get? 0).any (fun f => f.keyFrame) then some 0 else none
  | i + 1 =>
      if (l.get? (i + 1)).any (fun f => f.keyFrame) then some (i + 1)
      else lastKeyBefore l i

/-- Invariant of the frame-selection scan after processing the annotated
prefix `pre`: the index and running decode timestamp match the prefix,
`lastKey` is exactly the last key frame of the prefix (with its position
annotation), `best` is present exactly when the prefix holds a key frame,
and the best candidate describes the first frame `sel` minimising the pts
distance among the frames of the prefix at or after the first key frame,
together with the nearest key frame `ki` at or before it. -/
structure Inv (req base : Nat) (pre : List (InputFrame × Nat × Nat)) (st : ScanState) : Prop where
  hidx : st.index = pre.length
  hdts : st.dts = base + ((framesOf pre).map (fun f => f.duration)).sum
  hkey_none : st.lastKey = none ↔ ∀ x ∈ pre, x.1.keyFrame = false
  hkey_some : ∀ kpi kfi ki, st.lastKey = some (kpi, kfi, ki) →
      (∃ f, pre.get? ki = some (f, kpi, kfi) ∧ f.keyFrame = true) ∧
      ∀ j, ki < j → ∀ y, pre.get? j = some y → y.1.keyFrame = false
  hbest_none : st.best = none ↔ st.lastKey = none
  hbest : ∀ c, st.best = some c → ∃ sel ki,
      sel < pre.length ∧ ki ≤ sel ∧
      (∃ f, pre.get? ki = some (f, c.keyPart, c.keyOff) ∧ f.keyFrame = true) ∧
      (∀ j, ki < j → j ≤ sel → ∀ y, pre.get? j = some y → y.1.keyFrame = false) ∧
      c.minIndex = sel - ki ∧
      c.minDiff = diffAt base req (framesOf pre) sel ∧
      (∀ j < pre.length, keySeenB (framesOf pre) j = true →
        c.minDiff ≤ diffAt base req (framesOf pre) j) ∧
      (∀ j < sel, keySeenB (framesOf pre) j = true →
        c.minDiff < diffAt base req (framesOf pre) j)

/-- Number of delivery-callback invocations recorded in a trace. -/
def deliverCount (tr : List TraceEvent) : Nat :=
  tr.countP (fun e => match e with | .deliver _ => true | _ => false)

/-- Whether a trace event is a delivery-callback invocation. -/
def isDeliver (e : TraceEvent) : Bool :=
  match e with | .deliver _ => true | _ => false

/-- A scripted read result is well formed when an error result does not
carry VOD_OK (the frames source never signals an error with a success
status). -/
def readOkFree (e : ReadEvent) : Bool :=
  match e with
  | .errStat .ok => false
  | _ => true

/-- Delivery discipline of a run's freshly produced events `δ`, given its
returned status: the callback runs at most once; when it runs, it receives
the encoder's packet bytes, the run's status is the callback's returned
status, and the delivery is the run's final event; a VOD_OK run always
delivered; and when the encoder yields no packet nothing is ever delivered
and reaching the encode call ends the run with the unexpected status. -/
def TraceOut (env : Env) (st : VodStatus) (δ : List TraceEvent) : Prop :=
  deliverCount δ ≤ 1 ∧
  (∀ bs, TraceEvent.deliver bs ∈ δ →
    env.encode = .packet bs ∧ st = env.writeStatus ∧
    δ.getLast? = some (TraceEvent.deliver bs)) ∧
  (st = .ok → ∃ bs, env.encode = .packet bs ∧ TraceEvent.deliver bs ∈ δ) ∧
  (env.encode = .noPacket →
    (∀ bs, TraceEvent.deliver bs ∉ δ) ∧
    (TraceEvent.encodeCall ∈ δ → st = .unexpected))

/-- A scripted read result that never leaves a frame partially read in this
invocation: either a chunk completing its frame, or a non-chunk result. -/
def doneOnly (e : ReadEvent) : Bool :=
  match e with
  | .chunk _ frameDone => frameDone
  | _ => true

/-- A trace fragment that never allocates the scratch frame buffer and in
which every full-frame decode call read the bytes directly from the frames
source's buffer. -/
def DirectTrace (δ : List TraceEvent) : Prop :=
  (∀ n, TraceEvent.allocBuffer n ∉ δ) ∧
  (∀ sent d f, TraceEvent.decodeCall sent d f ∈ δ → d = true)

/-! ## Theorems -/

/-! ### Buffer manipulation lemmas -/

theorem length_memcpyAt (dst : List Nat) (pos : Nat) (src : List Nat)
    (h : pos + src.length ≤ dst.length) :
    (memcpyAt dst pos src).length = dst.length := by
  simp only [memcpyAt, List.length_append, List.length_take, List.length_drop]
  omega

theorem memcpyAt_take (dst : List Nat) (pos : Nat) (src : List Nat) (h : pos ≤ dst.length) :
    (memcpyAt dst pos src).take pos = dst.take pos := by
  have h1 : (dst.take pos).length = pos := by
    simp only [List.length_take]; omega
  simpa only [memcpyAt, List.append_assoc] using List.take_left' h1

theorem memcpyAt_drop_take (dst : List Nat) (pos : Nat) (src : List Nat)
    (h : pos ≤ dst.length) :
    ((memcpyAt dst pos src).drop pos).take src.length = src := by
  have h1 : (dst.take pos).length = pos := by
    simp only [List.length_take]; omega
  have h2 : (memcpyAt dst pos src).drop pos = src ++ dst.drop (pos + src.length) := by
    simpa only [memcpyAt, List.append_assoc] using List.drop_left' h1
  rw [h2]
  exact List.take_left src _

theorem memcpyAt_restore (buf : List Nat) (s p : Nat) (h : s + p ≤ buf.length) :
    memcpyAt (memcpyAt buf s (List.replicate p 0)) s ((buf.drop s).take p) = buf := by
  have hs : s ≤ buf.length := by omega
  have hop : ((buf.drop s).take p).length = p := by
    simp only [List.length_take, List.length_drop]; omega
  have hz : memcpyAt buf s (List.replicate p 0) =
      buf.take s ++ (List.replicate p 0 ++ buf.drop (s + p)) := by
    simp [memcpyAt, List.append_assoc]
  have h1 : (buf.take s).length = s := by simp only [List.length_take]; omega
  have h2 : ((buf.take s ++ List.replicate p (0 : Nat)).length) = s + p := by
    simp only [List.length_append, List.length_replicate, h1]
  rw [memcpyAt, hz, hop]
  have htake : (buf.take s ++ (List.replicate p (0:Nat) ++ buf.drop (s + p))).take s
      = buf.take s := List.take_left' h1
  have hdrop : (buf.take s ++ (List.replicate p (0:Nat) ++ buf.drop (s + p))).drop (s + p)
      = buf.drop (s + p) := by
    have := @List.drop_left' Nat (buf.take s ++ List.replicate p (0:Nat))
      (buf.drop (s + p)) (s + p) h2
    simpa only [List.append_assoc] using this
  rw [htake, hdrop]
  have hsplit : (buf.drop s).take p ++ buf.drop (s + p) = buf.drop s := by
    have hdd : (buf.drop s).drop p = buf.drop (s + p) := by
      rw [List.drop_drop, Nat.add_comm]
    rw [← hdd, List.take_append_drop]
  rw [List.append_assoc, hsplit, List.take_append_drop]

/-! ### C6: padding around the decode call (thumb_grabber_decode_frame) -/

/-- C6, amended.  thumb_grabber_decode_frame zeroes the `pad`-byte safety
margin immediately following the frame's byte range before invoking decode
(the decoder is shown the frame bytes unchanged followed by `pad` zero
bytes), and restores the original margin bytes immediately after the call
on every path on which the decode call did not report an error, so that the
buffer is byte-for-byte unchanged there.  On a decode error, however, the
function returns the corrupt-data status before the restore, leaving the
margin zeroed.  (The original claim asserted restoration on every return
path including decode errors; the error path refutes that.) -/
theorem decode_frame_pad_zero_and_restore (pad : Nat) (f : InputFrame) (buf : List Nat)
    (res : DecodeResult) (h : f.size + pad ≤ buf.length) :
    ((thumb_grabber_decode_frame pad f buf res).sent.take f.size = buf.take f.size) ∧
    (((thumb_grabber_decode_frame pad f buf res).sent.drop f.size).take pad =
      List.replicate pad 0) ∧
    (res ≠ .err → (thumb_grabber_decode_frame pad f buf res).buffer = buf) ∧
    (res = .err → (thumb_grabber_decode_frame pad f buf res).status = .badData ∧
      (thumb_grabber_decode_frame pad f buf res).buffer =
        memcpyAt buf f.size (List.replicate pad 0)) := by
  have hs : f.size ≤ buf.length := by omega
  have hsent : (thumb_grabber_decode_frame pad f buf res).sent =
      memcpyAt buf f.size (List.replicate pad 0) := by
    cases res <;> rfl
  refine ⟨?_, ?_, ?_, ?_⟩
  · rw [hsent]; exact memcpyAt_take buf f.size _ hs
  · rw [hsent]
    have := memcpyAt_drop_take buf f.size (List.replicate pad 0) hs
    simpa only [List.length_replicate] using this
  · intro hne
    have hres : (thumb_grabber_decode_frame pad f buf res).buffer =
        memcpyAt (memcpyAt buf f.size (List.replicate pad 0)) f.size
          ((buf.drop f.size).take pad) := by
      cases res with
      | err => exact absurd rfl hne
      | noFrame => rfl
      | frame => rfl
    rw [hres]
    exact memcpyAt_restore buf f.size pad h
  · intro he
    subst he
    exact ⟨rfl, rfl⟩

/-- Witness for decode_frame_pad_zero_and_restore: a concrete successful
decode of a 3-byte frame in a 5-byte buffer with a 2-byte margin leaves the
buffer unchanged. -/
theorem decode_frame_pad_zero_and_restore_witness :
    (3 + 2 ≤ 5) ∧
    ((thumb_grabber_decode_frame 2 ⟨3, 10, 0, true⟩ [9, 8, 7, 6, 5] .frame).buffer =
      [9, 8, 7, 6, 5]) :=
  ⟨by decide,
    (decode_frame_pad_zero_and_restore 2 ⟨3, 10, 0, true⟩ [9, 8, 7, 6, 5] .frame
      (by decide)).2.2.1 (by decide)⟩

/-- Counterexample to C6 as stated: on a decode error,
thumb_grabber_decode_frame returns with the two margin bytes after the
3-byte frame still zeroed, so the bytes beyond the frame's declared end are
changed from their values on entry. -/
theorem decode_frame_error_leaves_pad_zeroed :
    (thumb_grabber_decode_frame 2 ⟨3, 10, 0, true⟩ [9, 8, 7, 6, 5] .err).status = .badData ∧
    (thumb_grabber_decode_frame 2 ⟨3, 10, 0, true⟩ [9, 8, 7, 6, 5] .err).buffer.drop 3 ≠
      [9, 8, 7, 6, 5].drop 3 := by
  decide

/-! ### C4: decoder output latency and the flush loop -/

theorem flush_all_frames (oracle : Nat → DecodeResult) :
    ∀ (n idx : Nat), (∀ k < n, oracle (idx + k) = .frame) →
      thumb_grabber_decode_flush oracle n idx = (.ok, 0, idx + n) := by
  intro n
  induction n with
  | zero => intro idx _; rfl
  | succ m ih =>
      intro idx h
      have h0 : oracle idx = .frame := by
        have := h 0 (Nat.succ_pos m)
        simpa using this
      have hrest : ∀ k < m, oracle (idx + 1 + k) = .frame := by
        intro k hk
        have := h (k + 1) (Nat.succ_lt_succ hk)
        simpa [Nat.add_assoc, Nat.add_comm 1 k] using this
      simp only [thumb_grabber_decode_flush, h0]
      rw [ih (idx + 1) hrest]
      have harith : idx + 1 + m = idx + (m + 1) := by omega
      rw [harith]

theorem flush_err_at (oracle : Nat → DecodeResult) :
    ∀ (k n idx : Nat), k < n → (∀ j < k, oracle (idx + j) = .frame) →
      oracle (idx + k) = .err →
      thumb_grabber_decode_flush oracle n idx = (.badData, n - k, idx + k + 1) := by
  intro k
  induction k with
  | zero =>
      intro n idx hk _ he
      obtain ⟨m, rfl⟩ : ∃ m, n = m + 1 := ⟨n - 1, by omega⟩
      simp only [Nat.add_zero] at he
      simp [thumb_grabber_decode_flush, he]
  | succ j ih =>
      intro n idx hk hpre he
      obtain ⟨m, rfl⟩ : ∃ m, n = m + 1 := ⟨n - 1, by omega⟩
      have h0 : oracle idx = .frame := by
        have := hpre 0 (Nat.succ_pos j)
        simpa using this
      have hpre' : ∀ i < j, oracle (idx + 1 + i) = .frame := by
        intro i hi
        have := hpre (i + 1) (Nat.succ_lt_succ hi)
        simpa [Nat.add_assoc, Nat.add_comm 1 i] using this
      have he' : oracle (idx + 1 + j) = .err := by
        simpa [Nat.add_assoc, Nat.add_comm 1 j] using he
      simp only [thumb_grabber_decode_flush, h0]
      rw [ih m (idx + 1) (by omega) hpre' he']
      refine congrArg _ ?_
      refine congrArg₂ _ (by omega) (by omega)

theorem flush_noFrame_at (oracle : Nat → DecodeResult) :
    ∀ (k n idx : Nat), k < n → (∀ j < k, oracle (idx + j) = .frame) →
      oracle (idx + k) = .noFrame →
      thumb_grabber_decode_flush oracle n idx = (.unexpected, n - k, idx + k + 1) := by
  intro k
  induction k with
  | zero =>
      intro n idx hk _ he
      obtain ⟨m, rfl⟩ : ∃ m, n = m + 1 := ⟨n - 1, by omega⟩
      simp only [Nat.add_zero] at he
      simp [thumb_grabber_decode_flush, he]
  | succ j ih =>
      intro n idx hk hpre he
      obtain ⟨m, rfl⟩ : ∃ m, n = m + 1 := ⟨n - 1, by omega⟩
      have h0 : oracle idx = .frame := by
        have := hpre 0 (Nat.succ_pos j)
        simpa using this
      have hpre' : ∀ i < j, oracle (idx + 1 + i) = .frame := by
        intro i hi
        have := hpre (i + 1) (Nat.succ_lt_succ hi)
        simpa [Nat.add_assoc, Nat.add_comm 1 i] using this
      have he' : oracle (idx + 1 + j) = .noFrame := by
        simpa [Nat.add_assoc, Nat.add_comm 1 j] using he
      simp only [thumb_grabber_decode_flush, h0]
      rw [ih m (idx + 1) (by omega) hpre' he']
      refine congrArg _ ?_
      refine congrArg₂ _ (by omega) (by omega)

/-- write_frame under a fully cooperative decoder: with `n` pending latency
frames and an encoder that yields a packet, exactly `n` empty-input flush
decode calls happen, all before the single encode call. -/
theorem write_frame_flush_then_encode (env : Env) (s : GrabberState) (tr : List TraceEvent)
    (n : Nat) (bs : List Nat)
    (hm : s.missingFrames = n)
    (hd : ∀ k < n, env.decodeAt (s.decodeIdx + k) = .frame)
    (hp : env.encode = .packet bs) :
    thumb_grabber_write_frame env s tr =
      (env.writeStatus,
        { s with missingFrames := 0, decodeIdx := s.decodeIdx + n },
        tr ++ List.replicate n TraceEvent.flushCall ++
          [TraceEvent.encodeCall, TraceEvent.deliver bs]) := by
  have hfl : (if s.missingFrames > 0 then
      thumb_grabber_decode_flush env.decodeAt s.missingFrames s.decodeIdx
    else (.ok, s.missingFrames, s.decodeIdx)) = (.ok, 0, s.decodeIdx + n) := by
    subst hm
    by_cases hn : s.missingFrames > 0
    · rw [if_pos hn]; exact flush_all_frames env.decodeAt s.missingFrames s.decodeIdx hd
    · have : s.missingFrames = 0 := by omega
      rw [if_neg hn, this]
      simp
  simp only [thumb_grabber_write_frame, hfl, hp]
  have hc : s.decodeIdx + n - s.decodeIdx = n := by omega
  simp [hc, List.append_assoc]

/-- C4.  A frame decode that succeeds without producing a picture returns
VOD_OK with `got_frame` clear, and the engine's processing loop then
increments the pending-latency count rather than failing; when the target
frame is reached with `n` pending pictures, thumb_grabber_decode_flush
performs exactly `n` empty-input decode calls (all before the encode call)
when the decoder delivers every owed picture, returns the corrupt-data
status as soon as a flush call reports an error, and returns the
unexpected-state status as soon as a flush call succeeds without a picture
while latency is still pending. -/
theorem latency_flush_exact :
    (∀ (pad : Nat) (f : InputFrame) (buf : List Nat),
      (thumb_grabber_decode_frame pad f buf .noFrame).status = .ok ∧
      (thumb_grabber_decode_frame pad f buf .noFrame).gotFrame = false) ∧
    (∀ (env : Env) (s : GrabberState) (f f2 : InputFrame) (fs : List InputFrame)
        (b : List Nat) (k : Nat),
      s.frameStarted = true → s.curPart = f :: f2 :: fs → s.curFramePos = 0 →
      s.skipCount = k + 1 → env.reads = [.chunk b true] →
      env.decodeAt s.decodeIdx = .noFrame →
      env.starts.getD s.startIdx .ok = .ok →
      ∃ r, thumb_grabber_process env s = some r ∧ r.1 = .again ∧
        r.2.1.missingFrames = s.missingFrames + 1 ∧ r.2.1.skipCount = k) ∧
    (∀ (oracle : Nat → DecodeResult) (n idx : Nat),
      (∀ k < n, oracle (idx + k) = .frame) →
      thumb_grabber_decode_flush oracle n idx = (.ok, 0, idx + n)) ∧
    (∀ (oracle : Nat → DecodeResult) (k n idx : Nat),
      k < n → (∀ j < k, oracle (idx + j) = .frame) → oracle (idx + k) = .err →
      thumb_grabber_decode_flush oracle n idx = (.badData, n - k, idx + k + 1)) ∧
    (∀ (oracle : Nat → DecodeResult) (k n idx : Nat),
      k < n → (∀ j < k, oracle (idx + j) = .frame) → oracle (idx + k) = .noFrame →
      thumb_grabber_decode_flush oracle n idx = (.unexpected, n - k, idx + k + 1)) ∧
    (∀ (env : Env) (s : GrabberState) (tr : List TraceEvent) (n : Nat) (bs : List Nat),
      s.missingFrames = n → (∀ k < n, env.decodeAt (s.decodeIdx + k) = .frame) →
      env.encode = .packet bs →
      thumb_grabber_write_frame env s tr =
        (env.writeStatus,
          { s with missingFrames := 0, decodeIdx := s.decodeIdx + n },
          tr ++ List.replicate n TraceEvent.flushCall ++
            [TraceEvent.encodeCall, TraceEvent.deliver bs])) := by
  refine ⟨?_, ?_, flush_all_frames, flush_err_at, flush_noFrame_at,
    fun env s tr n bs hm hd hp => write_frame_flush_then_encode env s tr n bs hm hd hp⟩
  · intro pad f buf
    exact ⟨rfl, rfl⟩
  · intro env s f f2 fs b k hst hcur hpos hskip hreads hdec hstart
    have hstart' : (env.starts[s.startIdx]?).getD VodStatus.ok = VodStatus.ok := by
      simpa [List.getD] using hstart
    rw [thumb_grabber_process, hreads]
    simp [processGo, startPhase, startFrameStep, hst, hcur, hpos, hskip, hdec, hstart',
      thumb_grabber_decode_frame]

/-- Witness for latency_flush_exact: with two pending pictures and a fully
cooperative decoder the flush makes exactly two calls; an error (or a
missing picture) on the second call stops it with the corresponding status;
and a write_frame with two pending pictures flushes twice before the encode
call and the single delivery. -/
theorem latency_flush_exact_witness :
    (thumb_grabber_decode_flush (fun _ => .frame) 2 0 = (.ok, 0, 2)) ∧
    (thumb_grabber_decode_flush (fun i => if i < 1 then .frame else .err) 3 0 =
      (.badData, 2, 2)) ∧
    (thumb_grabber_decode_flush (fun i => if i < 1 then .frame else .noFrame) 3 0 =
      (.unexpected, 2, 2)) ∧
    (thumb_grabber_write_frame
        ⟨2, [], fun _ => DecodeResult.frame, .packet [5], .ok, true, []⟩
        ⟨[], [], 0, true, false, 0, 2, 3, none, 0, 0, 0⟩ [] =
      (.ok, ⟨[], [], 0, true, false, 0, 0, 3, none, 0, 2, 0⟩,
        [TraceEvent.flushCall, TraceEvent.flushCall, TraceEvent.encodeCall,
          TraceEvent.deliver [5]])) :=
  by
  refine ⟨?_, ?_, ?_, ?_⟩
  · simpa using latency_flush_exact.2.2.1 (fun _ => DecodeResult.frame) 2 0 (by decide)
  · simpa using latency_flush_exact.2.2.2.1
      (fun i => if i < 1 then DecodeResult.frame else DecodeResult.err) 1 3 0
      (by decide) (by decide) (by decide)
  · simpa using latency_flush_exact.2.2.2.2.1
      (fun i => if i < 1 then DecodeResult.frame else DecodeResult.noFrame) 1 3 0
      (by decide) (by decide) (by decide)
  · simpa using latency_flush_exact.2.2.2.2.2
      ⟨2, [], fun _ => DecodeResult.frame, .packet [5], .ok, true, []⟩
      ⟨[], [], 0, true, false, 0, 2, 3, none, 0, 0, 0⟩ [] 2 [5]
      rfl (by decide) rfl

/-! ### C8: maximum frame size (thumb_grabber_get_max_frame_size) -/

theorem le_foldl_sizeMax (l : List InputFrame) : ∀ acc : Nat, acc ≤ l.foldl sizeMax acc := by
  induction l with
  | nil => intro acc; exact Nat.le_refl acc
  | cons f fs ih =>
      intro acc
      refine Nat.le_trans ?_ (ih (sizeMax acc f))
      simp only [sizeMax]
      split
      · omega
      · exact Nat.le_refl acc

theorem foldl_sizeMax_ge (l : List InputFrame) :
    ∀ acc : Nat, ∀ f ∈ l, f.size ≤ l.foldl sizeMax acc := by
  induction l with
  | nil => intro acc f hf; cases hf
  | cons g gs ih =>
      intro acc f hf
      rcases List.mem_cons.mp hf with h | h
      · subst h
        refine Nat.le_trans ?_ (le_foldl_sizeMax gs (sizeMax acc f))
        simp only [List.foldl_cons, sizeMax]
        split
        · exact Nat.le_refl _
        · omega
      · exact ih (sizeMax acc g) f h

theorem foldl_sizeMax_attained (l : List InputFrame) :
    ∀ acc : Nat, l.foldl sizeMax acc = acc ∨ ∃ f ∈ l, l.foldl sizeMax acc = f.size := by
  induction l with
  | nil => intro acc; exact Or.inl rfl
  | cons g gs ih =>
      intro acc
      rcases ih (sizeMax acc g) with h | ⟨f, hf, h⟩
      · simp only [List.foldl_cons]
        rw [h]
        simp only [sizeMax]
        split
        · exact Or.inr ⟨g, List.mem_cons_self g gs, rfl⟩
        · exact Or.inl rfl
      · exact Or.inr ⟨f, List.mem_cons_of_mem g hf, by simpa using h⟩

theorem maxFrameSizeGo_eq_foldl :
    ∀ (lim : Nat) (fs : List InputFrame) (parts : List FrameListPart) (acc : Nat),
      (∀ p ∈ parts, p ≠ []) → lim ≤ fs.length + parts.flatten.length →
      maxFrameSizeGo fs parts lim acc =
        some (((fs ++ parts.flatten).take lim).foldl sizeMax acc) := by
  intro lim
  induction lim with
  | zero => intro fs parts acc _ _; simp [maxFrameSizeGo]
  | succ n ih =>
      intro fs parts acc hne hlen
      cases fs with
      | cons f fs' =>
          have hlen' : n ≤ fs'.length + parts.flatten.length := by
            simp only [List.length_cons] at hlen
            omega
          rw [show maxFrameSizeGo (f :: fs') parts (n + 1) acc
              = maxFrameSizeGo fs' parts n (sizeMax acc f) from rfl]
          rw [ih fs' parts (sizeMax acc f) hne hlen']
          simp [List.take_succ_cons]
      | nil =>
          cases parts with
          | nil => simp at hlen
          | cons p rest =>
              have hpne : p ≠ [] := hne p (List.mem_cons_self p rest)
              cases p with
              | nil => exact absurd rfl hpne
              | cons g gs =>
                  rw [show maxFrameSizeGo [] ((g :: gs) :: rest) (n + 1) acc
                      = maxFrameSizeGo gs rest n (sizeMax acc g) from rfl]
                  have hne' : ∀ q ∈ rest, q ≠ [] := fun q hq =>
                    hne q (List.mem_cons_of_mem _ hq)
                  have hlen' : n ≤ gs.length + rest.flatten.length := by
                    have hj := hlen
                    simp only [List.flatten, List.length_nil, List.length_cons,
                      List.length_append, Nat.zero_add] at hj
                    omega
                  rw [ih gs rest (sizeMax acc g) hne' hlen']
                  simp [List.take_succ_cons]

/-- C8.  thumb_grabber_get_max_frame_size, given the frame chain and a
limit, returns a value that bounds the byte size of each of the first
`limit` frames (taken across part boundaries) and is attained by one of
them unless it is zero — i.e. it is the true maximum size among exactly
those frames. -/
theorem get_max_frame_size_true_max (parts : List FrameListPart) (limit : Nat)
    (hne : ∀ p ∈ parts, p ≠ []) (hp : parts ≠ []) (hlim : limit ≤ parts.flatten.length) :
    ∃ M, thumb_grabber_get_max_frame_size parts limit = some M ∧
      (∀ f ∈ parts.flatten.take limit, f.size ≤ M) ∧
      (M = 0 ∨ ∃ f ∈ parts.flatten.take limit, f.size = M) := by
  cases parts with
  | nil => exact absurd rfl hp
  | cons p rest =>
      have hjoin : (p :: rest).flatten = p ++ rest.flatten := by simp [List.flatten]
      have hne' : ∀ q ∈ rest, q ≠ [] := fun q hq => hne q (List.mem_cons_of_mem _ hq)
      have hlen : limit ≤ p.length + rest.flatten.length := by
        rw [hjoin, List.length_append] at hlim
        exact hlim
      refine ⟨((p ++ rest.flatten).take limit).foldl sizeMax 0, ?_, ?_, ?_⟩
      · rw [show thumb_grabber_get_max_frame_size (p :: rest) limit
            = maxFrameSizeGo p rest limit 0 from rfl]
        exact maxFrameSizeGo_eq_foldl limit p rest 0 hne' hlen
      · intro f hf
        rw [hjoin] at hf
        exact foldl_sizeMax_ge _ 0 f hf
      · rcases foldl_sizeMax_attained ((p ++ rest.flatten).take limit) 0 with h | ⟨f, hf, h⟩
        · exact Or.inl h
        · refine Or.inr ⟨f, ?_, h.symm⟩
          rw [hjoin]
          exact hf

/-- Witness for get_max_frame_size_true_max: a two-part chain with frame
sizes 5, 9 and 7 and limit 3; the sizing loop crosses the part boundary and
the returned maximum is 9. -/
theorem get_max_frame_size_true_max_witness :
    ∃ M, thumb_grabber_get_max_frame_size
        [[⟨5, 1, 0, true⟩, ⟨9, 1, 0, false⟩], [⟨7, 1, 0, false⟩]] 3 = some M ∧
      (∀ f ∈ ([[⟨5, 1, 0, true⟩, ⟨9, 1, 0, false⟩],
          [⟨7, 1, 0, false⟩]] : List FrameListPart).flatten.take 3, f.size ≤ M) ∧
      (M = 0 ∨ ∃ f ∈ ([[⟨5, 1, 0, true⟩, ⟨9, 1, 0, false⟩],
          [⟨7, 1, 0, false⟩]] : List FrameListPart).flatten.take 3, f.size = M) :=
  get_max_frame_size_true_max
    [[⟨5, 1, 0, true⟩, ⟨9, 1, 0, false⟩], [⟨7, 1, 0, false⟩]] 3
    (by decide) (by decide) (by decide)

/-! ### Frame selection: list and timestamp lemmas -/

theorem framesOf_append (pre xs : List (InputFrame × Nat × Nat)) :
    framesOf (pre ++ xs) = framesOf pre ++ framesOf xs := by
  simp [framesOf]

theorem framesOf_length (pre : List (InputFrame × Nat × Nat)) :
    (framesOf pre).length = pre.length := by
  simp [framesOf]

theorem framesOf_get? (pre : List (InputFrame × Nat × Nat)) (i : Nat) :
    (framesOf pre).get? i = (pre.get? i).map (fun x => x.1) := by
  simp [framesOf]

theorem dtsAt_snoc (base : Nat) (l : List InputFrame) (y : InputFrame) (i : Nat)
    (h : i ≤ l.length) : dtsAt base (l ++ [y]) i = dtsAt base l i := by
  unfold dtsAt
  rw [List.take_append_eq_append_take]
  have h0 : i - l.length = 0 := by omega
  rw [h0]
  simp

theorem ptsAt_snoc (base : Nat) (l : List InputFrame) (y : InputFrame) (i : Nat)
    (h : i < l.length) : ptsAt base (l ++ [y]) i = ptsAt base l i := by
  unfold ptsAt
  rw [dtsAt_snoc base l y i (Nat.le_of_lt h), List.get?_append h]

theorem diffAt_snoc (base req : Nat) (l : List InputFrame) (y : InputFrame) (i : Nat)
    (h : i < l.length) : diffAt base req (l ++ [y]) i = diffAt base req l i := by
  unfold diffAt
  rw [ptsAt_snoc base l y i h]

theorem ptsAt_snoc_self (base : Nat) (l : List InputFrame) (y : InputFrame) :
    ptsAt base (l ++ [y]) l.length =
      base + (l.map (fun f => f.duration)).sum + y.ptsDelay := by
  unfold ptsAt dtsAt
  rw [List.take_left, List.get?_concat_length]
  simp

theorem keySeenB_snoc (l : List InputFrame) (y : InputFrame) :
    ∀ i, i < l.length → keySeenB (l ++ [y]) i = keySeenB l i := by
  intro i
  induction i with
  | zero =>
      intro h
      simp only [keySeenB]
      rw [List.get?_append h]
  | succ j ih =>
      intro h
      simp only [keySeenB]
      rw [ih (by omega), List.get?_append h]

theorem optAny_of_get? (l : List InputFrame) (i : Nat) (f : InputFrame)
    (h : l.get? i = some f) (hk : f.keyFrame = true) :
    (l.get? i).any (fun f => f.keyFrame) = true := by
  rw [h]
  exact hk

theorem optAny_elim (l : List InputFrame) (i : Nat)
    (h : (l.get? i).any (fun f => f.keyFrame) = true) :
    ∃ f, l.get? i = some f ∧ f.keyFrame = true := by
  cases hi : l.get? i with
  | none => rw [hi] at h; exact absurd h (by simp [Option.any])
  | some f => rw [hi] at h; exact ⟨f, rfl, h⟩

theorem keySeenB_of_key (l : List InputFrame) (k : Nat) (f : InputFrame)
    (hk : l.get? k = some f) (hkey : f.keyFrame = true) :
    ∀ j, k ≤ j → keySeenB l j = true := by
  intro j
  induction j with
  | zero =>
      intro hle
      have hk0 : k = 0 := by omega
      subst hk0
      show (l.get? 0).any (fun f => f.keyFrame) = true
      exact optAny_of_get? l 0 f hk hkey
  | succ m ih =>
      intro hle
      show (keySeenB l m || (l.get? (m + 1)).any (fun f => f.keyFrame)) = true
      rcases Nat.lt_or_ge k (m + 1) with hlt | hge
      · rw [ih (by omega)]
        rfl
      · have hk1 : k = m + 1 := by omega
        subst hk1
        rw [optAny_of_get? l (m + 1) f hk hkey]
        exact Bool.or_true _

theorem keySeenB_exists (l : List InputFrame) :
    ∀ j, keySeenB l j = true → ∃ k f, k ≤ j ∧ l.get? k = some f ∧ f.keyFrame = true := by
  intro j
  induction j with
  | zero =>
      intro h
      obtain ⟨f, hf, hkey⟩ := optAny_elim l 0 h
      exact ⟨0, f, Nat.le_refl 0, hf, hkey⟩
  | succ m ih =>
      intro h
      have h' : (keySeenB l m || (l.get? (m + 1)).any (fun f => f.keyFrame)) = true := h
      rcases Bool.or_eq_true_iff.mp h' with h1 | h1
      · obtain ⟨k, f, hle, hk, hkey⟩ := ih h1
        exact ⟨k, f, by omega, hk, hkey⟩
      · obtain ⟨f, hf, hkey⟩ := optAny_elim l (m + 1) h1
        exact ⟨m + 1, f, Nat.le_refl _, hf, hkey⟩

theorem lastKeyBefore_eq (l : List InputFrame) :
    ∀ (sel ki : Nat), ki ≤ sel →
      (l.get? ki).any (fun f => f.keyFrame) = true →
      (∀ j, ki < j → j ≤ sel → ∀ y, l.get? j = some y → y.keyFrame = false) →
      lastKeyBefore l sel = some ki := by
  intro sel
  induction sel with
  | zero =>
      intro ki hle hkey _
      have h0 : ki = 0 := by omega
      subst h0
      show (if (l.get? 0).any (fun f => f.keyFrame) = true then some 0 else none) = some 0
      rw [if_pos hkey]
  | succ m ih =>
      intro ki hle hkey hgap
      show (if (l.get? (m + 1)).any (fun f => f.keyFrame) = true then some (m + 1)
        else lastKeyBefore l m) = some ki
      rcases Nat.lt_or_ge ki (m + 1) with hlt | hge
      · have hnone : ¬ ((l.get? (m + 1)).any (fun f => f.keyFrame) = true) := by
          intro hc
          obtain ⟨y, hy, hykey⟩ := optAny_elim l (m + 1) hc
          exact absurd hykey (by simp [hgap (m + 1) hlt (Nat.le_refl _) y hy])
        rw [if_neg hnone]
        exact ih ki (by omega) hkey (fun j hj hjm => hgap j hj (by omega))
      · have h1 : ki = m + 1 := by omega
        subst h1
        rw [if_pos hkey]

/-! ### Frame selection: annotation lemmas -/

theorem annotatePart_framesOf (pi : Nat) :
    ∀ (fi : Nat) (p : List InputFrame), framesOf (annotatePart pi fi p) = p := by
  intro fi p
  induction p generalizing fi with
  | nil => rfl
  | cons f fs ih =>
      show f :: framesOf (annotatePart pi (fi + 1) fs) = f :: fs
      rw [ih (fi + 1)]

theorem annotatePart_length (pi : Nat) (fi : Nat) (p : List InputFrame) :
    (annotatePart pi fi p).length = p.length := by
  have := annotatePart_framesOf pi fi p
  have h2 := framesOf_length (annotatePart pi fi p)
  rw [this] at h2
  omega

theorem annotatePart_get? (pi : Nat) :
    ∀ (p : List InputFrame) (fi g : Nat),
      (annotatePart pi fi p).get? g = (p.get? g).map (fun f => (f, pi, fi + g)) := by
  intro p
  induction p with
  | nil => intro fi g; simp [annotatePart]
  | cons f fs ih =>
      intro fi g
      cases g with
      | zero => simp [annotatePart]
      | succ m =>
          simp only [annotatePart, List.get?_cons_succ]
          rw [ih (fi + 1) m]
          have : fi + 1 + m = fi + (m + 1) := by omega
          rw [this]

theorem annotateFrom_framesOf :
    ∀ (parts : List FrameListPart) (pi : Nat),
      framesOf (annotateFrom pi parts) = parts.flatten := by
  intro parts
  induction parts with
  | nil => intro pi; rfl
  | cons p rest ih =>
      intro pi
      simp only [annotateFrom, framesOf_append, annotatePart_framesOf, ih, List.flatten_cons]

theorem annotateFrom_get? :
    ∀ (parts : List FrameListPart) (pi g : Nat) (f : InputFrame) (pj off : Nat),
      (annotateFrom pi parts).get? g = some (f, pj, off) →
      pi ≤ pj ∧
      ∃ p, parts.get? (pj - pi) = some p ∧ p.get? off = some f ∧
        p.drop off ++ (parts.drop (pj - pi + 1)).flatten = parts.flatten.drop g := by
  intro parts
  induction parts with
  | nil => intro pi g f pj off h; simp [annotateFrom] at h
  | cons p rest ih =>
      intro pi g f pj off h
      simp only [annotateFrom] at h
      rcases Nat.lt_or_ge g p.length with hlt | hge
      · have hlen : g < (annotatePart pi 0 p).length := by
          rw [annotatePart_length]; exact hlt
        rw [List.get?_append hlen, annotatePart_get? pi p 0 g] at h
        cases hp : p.get? g with
        | none => rw [hp] at h; simp at h
        | some fg =>
            rw [hp] at h
            have h' : some (fg, pi, 0 + g) = some (f, pj, off) := h
            simp only [Option.some.injEq, Prod.mk.injEq] at h'
            obtain ⟨hf, hpj, hoff⟩ := h'
            subst hf
            have hpj' : pj = pi := hpj.symm
            subst hpj'
            subst hoff
            refine ⟨Nat.le_refl _, p, ?_, ?_, ?_⟩
            · simp
            · simpa using hp
            · simp only [Nat.sub_self, Nat.zero_add, List.drop_succ_cons, List.drop_zero,
                List.flatten_cons]
              rw [List.drop_append_eq_append_drop]
              have h0 : g - p.length = 0 := by omega
              rw [h0]
              simp
      · have hlen : (annotatePart pi 0 p).length ≤ g := by
          rw [annotatePart_length]; exact hge
        rw [List.get?_append_right hlen] at h
        rw [annotatePart_length] at h
        obtain ⟨hpi, q, hq, hoff, hdrop⟩ := ih (pi + 1) (g - p.length) f pj off h
        have hpi' : pi ≤ pj := by omega
        refine ⟨hpi', q, ?_, hoff, ?_⟩
        · have h1 : pj - pi = (pj - (pi + 1)) + 1 := by omega
          rw [h1]
          simpa using hq
        · have h1 : pj - pi = (pj - (pi + 1)) + 1 := by omega
          rw [h1]
          simp only [List.drop_succ_cons, List.flatten_cons]
          rw [List.drop_append_eq_append_drop]
          have h2 : p.drop g = [] := List.drop_of_length_le hge
          rw [h2]
          simpa using hdrop

/-! ### Frame selection: the scan invariant -/

theorem get?_some_lt {α : Type} (l : List α) (i : Nat) (a : α) (h : l.get? i = some a) :
    i < l.length := by
  by_contra hc
  rw [List.get?_eq_none.mpr (by omega)] at h
  cases h

theorem Inv.init (req base : Nat) : Inv req base [] ⟨base, 0, none, none⟩ := by
  refine ⟨rfl, by simp [framesOf], ?_, ?_, ?_, ?_⟩
  · constructor
    · intro _ x hx; cases hx
    · intro _; rfl
  · intro kpi kfi ki h; cases h
  · constructor
    · intro _; rfl
    · intro _; rfl
  · intro c h; cases h

theorem Inv.step (req base : Nat) (pre : List (InputFrame × Nat × Nat))
    (st : ScanState) (x : InputFrame × Nat × Nat) (h : Inv req base pre st) :
    Inv req base (pre ++ [x]) (scanStep req x st) := by
  obtain ⟨sdts, sidx, slk, sbest⟩ := st
  obtain ⟨hidx, hdts, hkey_none, hkey_some, hbest_none, hbest⟩ := h
  simp only at hidx hdts hkey_none hkey_some hbest_none hbest
  subst hidx
  subst hdts
  -- abbreviations
  have hget_lt : ∀ j, j < pre.length → (pre ++ [x]).get? j = pre.get? j := by
    intro j hj
    exact List.get?_append hj
  have hget_n : (pre ++ [x]).get? pre.length = some x := List.get?_concat_length pre x
  have hget_gt : ∀ j, pre.length < j → (pre ++ [x]).get? j = none := by
    intro j hj
    refine List.get?_eq_none.mpr ?_
    simp only [List.length_append, List.length_cons, List.length_nil]
    omega
  have hl' : framesOf (pre ++ [x]) = framesOf pre ++ [x.1] := framesOf_append pre [x]
  have hflen : (framesOf pre).length = pre.length := framesOf_length pre
  have hdiff_lt : ∀ j, j < pre.length →
      diffAt base req (framesOf (pre ++ [x])) j = diffAt base req (framesOf pre) j := by
    intro j hj
    rw [hl']
    exact diffAt_snoc base req (framesOf pre) x.1 j (by omega)
  have hks_lt : ∀ j, j < pre.length →
      keySeenB (framesOf (pre ++ [x])) j = keySeenB (framesOf pre) j := by
    intro j hj
    rw [hl']
    exact keySeenB_snoc (framesOf pre) x.1 j (by omega)
  have hdiff_n : diffAt base req (framesOf (pre ++ [x])) pre.length =
      absDiff (base + ((framesOf pre).map (fun f => f.duration)).sum + x.1.ptsDelay) req := by
    rw [hl', diffAt, show pre.length = (framesOf pre).length from hflen.symm,
      ptsAt_snoc_self]
  -- the common state facts for the new prefix
  have hidx' : pre.length + 1 = (pre ++ [x]).length := by simp
  have hdts' : base + ((framesOf pre).map (fun f => f.duration)).sum + x.1.duration =
      base + ((framesOf (pre ++ [x])).map (fun f => f.duration)).sum := by
    rw [hl']
    simp [Nat.add_assoc]
  -- the strict-minimality premise transfer for a fresh candidate at index pre.length
  have hnew : ∀ kpi kfi ki,
      ki ≤ pre.length →
      (∃ f, (pre ++ [x]).get? ki = some (f, kpi, kfi) ∧ f.keyFrame = true) →
      (∀ j, ki < j → j ≤ pre.length → ∀ y, (pre ++ [x]).get? j = some y →
        y.1.keyFrame = false) →
      (∀ j, j < pre.length → keySeenB (framesOf pre) j = true →
        absDiff (base + ((framesOf pre).map (fun f => f.duration)).sum + x.1.ptsDelay) req <
          diffAt base req (framesOf pre) j) →
      ∃ sel ki', sel < (pre ++ [x]).length ∧ ki' ≤ sel ∧
        (∃ f, (pre ++ [x]).get? ki' = some (f, kpi, kfi) ∧ f.keyFrame = true) ∧
        (∀ j, ki' < j → j ≤ sel → ∀ y, (pre ++ [x]).get? j = some y →
          y.1.keyFrame = false) ∧
        pre.length - ki = sel - ki' ∧
        absDiff (base + ((framesOf pre).map (fun f => f.duration)).sum + x.1.ptsDelay) req =
          diffAt base req (framesOf (pre ++ [x])) sel ∧
        (∀ j < (pre ++ [x]).length, keySeenB (framesOf (pre ++ [x])) j = true →
          absDiff (base + ((framesOf pre).map (fun f => f.duration)).sum + x.1.ptsDelay) req ≤
            diffAt base req (framesOf (pre ++ [x])) j) ∧
        (∀ j < sel, keySeenB (framesOf (pre ++ [x])) j = true →
          absDiff (base + ((framesOf pre).map (fun f => f.duration)).sum + x.1.ptsDelay) req <
            diffAt base req (framesOf (pre ++ [x])) j) := by
    intro kpi kfi ki hki hkey hgap hstrict
    refine ⟨pre.length, ki, by simp, hki, hkey, hgap, rfl, hdiff_n.symm, ?_, ?_⟩
    · intro j hj hks
      rcases Nat.lt_or_ge j pre.length with hlt | hge
      · have := hstrict j hlt (by rw [← hks_lt j hlt]; exact hks)
        rw [hdiff_lt j hlt]
        exact Nat.le_of_lt this
      · have hjn : j = pre.length := by
          simp only [List.length_append, List.length_cons, List.length_nil] at hj
          omega
        subst hjn
        rw [hdiff_n]
    · intro j hj hks
      have := hstrict j hj (by rw [← hks_lt j hj]; exact hks)
      rw [hdiff_lt j hj]
      exact this
  -- keeping the old candidate stays valid when the new difference is not smaller
  have hkeep : ∀ c, sbest = some c →
      ¬(absDiff (base + ((framesOf pre).map (fun f => f.duration)).sum + x.1.ptsDelay) req <
        c.minDiff) →
      ∃ sel ki, sel < (pre ++ [x]).length ∧ ki ≤ sel ∧
        (∃ f, (pre ++ [x]).get? ki = some (f, c.keyPart, c.keyOff) ∧ f.keyFrame = true) ∧
        (∀ j, ki < j → j ≤ sel → ∀ y, (pre ++ [x]).get? j = some y →
          y.1.keyFrame = false) ∧
        c.minIndex = sel - ki ∧
        c.minDiff = diffAt base req (framesOf (pre ++ [x])) sel ∧
        (∀ j < (pre ++ [x]).length, keySeenB (framesOf (pre ++ [x])) j = true →
          c.minDiff ≤ diffAt base req (framesOf (pre ++ [x])) j) ∧
        (∀ j < sel, keySeenB (framesOf (pre ++ [x])) j = true →
          c.minDiff < diffAt base req (framesOf (pre ++ [x])) j) := by
    intro c hc hnotup
    obtain ⟨sel₀, ki₀, hsel₀, hki₀, ⟨zf, hzf, hzkey⟩, hgap₀, hmi, hmd, hmin₀, hstrict₀⟩ :=
      hbest c hc
    refine ⟨sel₀, ki₀, ?_, hki₀, ⟨zf, ?_, hzkey⟩, ?_, hmi, ?_, ?_, ?_⟩
    · simp only [List.length_append, List.length_cons, List.length_nil]
      omega
    · rw [hget_lt ki₀ (by omega)]
      exact hzf
    · intro j hj1 hj2 y hy
      rw [hget_lt j (by omega)] at hy
      exact hgap₀ j hj1 hj2 y hy
    · rw [hdiff_lt sel₀ hsel₀]
      exact hmd
    · intro j hj hks
      rcases Nat.lt_or_ge j pre.length with hlt | hge
      · rw [hdiff_lt j hlt]
        exact hmin₀ j hlt (by rw [← hks_lt j hlt]; exact hks)
      · have hjn : j = pre.length := by
          simp only [List.length_append, List.length_cons, List.length_nil] at hj
          omega
        subst hjn
        rw [hdiff_n]
        exact Nat.le_of_not_lt hnotup
    · intro j hj hks
      rw [hdiff_lt j (by omega)]
      exact hstrict₀ j hj (by rw [← hks_lt j (by omega)]; exact hks)
  by_cases hxk : x.1.keyFrame = true
  · -- the new frame is a key frame: last key becomes x itself
    have hkeyx : ∃ f, (pre ++ [x]).get? pre.length = some (f, x.2.1, x.2.2) ∧
        f.keyFrame = true := ⟨x.1, by rw [hget_n], hxk⟩
    have hgapx : ∀ j, pre.length < j → j ≤ pre.length →
        ∀ y, (pre ++ [x]).get? j = some y → y.1.keyFrame = false := by
      intro j h1 h2
      omega
    have hkn : ((some (x.2.1, x.2.2, pre.length) :
        Option (Nat × Nat × Nat)) = none ↔ ∀ y ∈ pre ++ [x], y.1.keyFrame = false) := by
      constructor
      · intro habs; cases habs
      · intro hall
        have := hall x (List.mem_append_right pre (List.mem_singleton.mpr rfl))
        rw [hxk] at this
        cases this
    have hksome : ∀ kpi kfi ki,
        (some (x.2.1, x.2.2, pre.length) : Option (Nat × Nat × Nat)) = some (kpi, kfi, ki) →
        (∃ f, (pre ++ [x]).get? ki = some (f, kpi, kfi) ∧ f.keyFrame = true) ∧
        ∀ j, ki < j → ∀ y, (pre ++ [x]).get? j = some y → y.1.keyFrame = false := by
      intro kpi kfi ki heq
      have h1 : x.2.1 = kpi := congrArg (fun o => (o.getD (0, 0, 0)).1) heq
      have h2 : x.2.2 = kfi := congrArg (fun o => (o.getD (0, 0, 0)).2.1) heq
      have h3 : pre.length = ki := congrArg (fun o => (o.getD (0, 0, 0)).2.2) heq
      subst h1; subst h2; subst h3
      refine ⟨hkeyx, ?_⟩
      intro j hj y hy
      rw [hget_gt j hj] at hy
      cases hy
    cases sbest with
    | none =>
        -- no candidate yet: the scan state had no key frame at all before x
        have hslk : slk = none := hbest_none.mp rfl
        subst hslk
        have hall : ∀ y ∈ pre, y.1.keyFrame = false := hkey_none.mp rfl
        have hstrict0 : ∀ j, j < pre.length → keySeenB (framesOf pre) j = true →
            absDiff (base + ((framesOf pre).map (fun f => f.duration)).sum + x.1.ptsDelay)
              req < diffAt base req (framesOf pre) j := by
          intro j hj hks
          exfalso
          obtain ⟨k, f, hkle, hfk, hfkey⟩ := keySeenB_exists (framesOf pre) j hks
          rw [framesOf_get?] at hfk
          cases hy : pre.get? k with
          | none => rw [hy] at hfk; cases hfk
          | some y =>
              rw [hy] at hfk
              have hyf : y.1 = f := by
                have : some y.1 = some f := hfk
                exact Option.some.inj this
              have hmem : y ∈ pre := List.get?_mem hy
              have := hall y hmem
              rw [hyf, hfkey] at this
              cases this
        refine ⟨hidx', hdts', ?_, ?_, ?_, ?_⟩
        · have hstep : (scanStep req x ⟨base + ((framesOf pre).map
              (fun f => f.duration)).sum, pre.length, none, none⟩).lastKey =
              some (x.2.1, x.2.2, pre.length) := by
            simp [scanStep, hxk]
          rw [hstep]
          exact hkn
        · have hstep : (scanStep req x ⟨base + ((framesOf pre).map
              (fun f => f.duration)).sum, pre.length, none, none⟩).lastKey =
              some (x.2.1, x.2.2, pre.length) := by
            simp [scanStep, hxk]
          rw [hstep]
          exact hksome
        · have hstepb : (scanStep req x ⟨base + ((framesOf pre).map
              (fun f => f.duration)).sum, pre.length, none, none⟩).best =
              some ⟨pre.length - pre.length,
                absDiff (base + ((framesOf pre).map (fun f => f.duration)).sum +
                  x.1.ptsDelay) req, x.2.1, x.2.2⟩ := by
            simp [scanStep, hxk]
          have hstep : (scanStep req x ⟨base + ((framesOf pre).map
              (fun f => f.duration)).sum, pre.length, none, none⟩).lastKey =
              some (x.2.1, x.2.2, pre.length) := by
            simp [scanStep, hxk]
          rw [hstepb, hstep]
          constructor
          · intro habs; cases habs
          · intro habs; cases habs
        · have hstepb : (scanStep req x ⟨base + ((framesOf pre).map
              (fun f => f.duration)).sum, pre.length, none, none⟩).best =
              some ⟨pre.length - pre.length,
                absDiff (base + ((framesOf pre).map (fun f => f.duration)).sum +
                  x.1.ptsDelay) req, x.2.1, x.2.2⟩ := by
            simp [scanStep, hxk]
          rw [hstepb]
          intro c heq
          obtain rfl : (⟨pre.length - pre.length,
              absDiff (base + ((framesOf pre).map (fun f => f.duration)).sum +
                x.1.ptsDelay) req, x.2.1, x.2.2⟩ : Candidate) = c := Option.some.inj heq
          exact hnew x.2.1 x.2.2 pre.length (Nat.le_refl _) hkeyx hgapx hstrict0
    | some c =>
        have hupmin : ∀ j, j < pre.length → keySeenB (framesOf pre) j = true →
            c.minDiff ≤ diffAt base req (framesOf pre) j := by
          intro j hj hks
          obtain ⟨sel₀, ki₀, hsel₀, hki₀, hkey₀, hgap₀, hmi, hmd, hmin₀, hstrict₀⟩ :=
            hbest c rfl
          exact hmin₀ j hj hks
        by_cases hup : absDiff (base + ((framesOf pre).map (fun f => f.duration)).sum +
            x.1.ptsDelay) req < c.minDiff
        · have hstrict0 : ∀ j, j < pre.length → keySeenB (framesOf pre) j = true →
              absDiff (base + ((framesOf pre).map (fun f => f.duration)).sum +
                x.1.ptsDelay) req < diffAt base req (framesOf pre) j := by
            intro j hj hks
            exact Nat.lt_of_lt_of_le hup (hupmin j hj hks)
          have hstep : (scanStep req x ⟨base + ((framesOf pre).map
              (fun f => f.duration)).sum, pre.length, slk, some c⟩).lastKey =
              some (x.2.1, x.2.2, pre.length) := by
            simp [scanStep, hxk]
          have hstepb : (scanStep req x ⟨base + ((framesOf pre).map
              (fun f => f.duration)).sum, pre.length, slk, some c⟩).best =
              some ⟨pre.length - pre.length,
                absDiff (base + ((framesOf pre).map (fun f => f.duration)).sum +
                  x.1.ptsDelay) req, x.2.1, x.2.2⟩ := by
            simp [scanStep, hxk, hup]
          refine ⟨hidx', hdts', ?_, ?_, ?_, ?_⟩
          · rw [hstep]; exact hkn
          · rw [hstep]; exact hksome
          · rw [hstepb, hstep]
            constructor
            · intro habs; cases habs
            · intro habs; cases habs
          · rw [hstepb]
            intro c' heq
            obtain rfl : (⟨pre.length - pre.length,
                absDiff (base + ((framesOf pre).map (fun f => f.duration)).sum +
                  x.1.ptsDelay) req, x.2.1, x.2.2⟩ : Candidate) = c' := Option.some.inj heq
            exact hnew x.2.1 x.2.2 pre.length (Nat.le_refl _) hkeyx hgapx hstrict0
        · have hstep : (scanStep req x ⟨base + ((framesOf pre).map
              (fun f => f.duration)).sum, pre.length, slk, some c⟩).lastKey =
              some (x.2.1, x.2.2, pre.length) := by
            simp [scanStep, hxk]
          have hstepb : (scanStep req x ⟨base + ((framesOf pre).map
              (fun f => f.duration)).sum, pre.length, slk, some c⟩).best = some c := by
            simp [scanStep, hxk, hup]
          refine ⟨hidx', hdts', ?_, ?_, ?_, ?_⟩
          · rw [hstep]; exact hkn
          · rw [hstep]; exact hksome
          · rw [hstepb, hstep]
            constructor
            · intro habs; cases habs
            · intro habs; cases habs
          · rw [hstepb]
            intro c' heq
            obtain rfl : c = c' := Option.some.inj heq
            exact hkeep c rfl hup
  · -- the new frame is not a key frame: last key is unchanged
    have hxk' : x.1.keyFrame = false := by
      cases hx : x.1.keyFrame
      · rfl
      · exact absurd hx hxk
    cases slk with
    | none =>
        have hsb : sbest = none := hbest_none.mpr rfl
        subst hsb
        have hall : ∀ y ∈ pre, y.1.keyFrame = false := hkey_none.mp rfl
        have hstep : (scanStep req x ⟨base + ((framesOf pre).map
            (fun f => f.duration)).sum, pre.length, none, none⟩).lastKey = none := by
          simp [scanStep, hxk']
        have hstepb : (scanStep req x ⟨base + ((framesOf pre).map
            (fun f => f.duration)).sum, pre.length, none, none⟩).best = none := by
          simp [scanStep, hxk']
        refine ⟨hidx', hdts', ?_, ?_, ?_, ?_⟩
        · rw [hstep]
          constructor
          · intro _ y hy
            rcases List.mem_append.mp hy with hm | hm
            · exact hall y hm
            · rw [List.mem_singleton.mp hm]
              exact hxk'
          · intro _; rfl
        · rw [hstep]
          intro kpi kfi ki heq
          cases heq
        · rw [hstepb, hstep]
          constructor
          · intro _; rfl
          · intro _; rfl
        · rw [hstepb]
          intro c heq
          cases heq
    | some lk =>
        obtain ⟨kpi₀, kfi₀, ki₀⟩ := lk
        obtain ⟨⟨zf, hzf, hzkey⟩, hgap₀⟩ := hkey_some kpi₀ kfi₀ ki₀ rfl
        have hki₀lt : ki₀ < pre.length := get?_some_lt pre ki₀ _ hzf
        have hkeyl : ∃ f, (pre ++ [x]).get? ki₀ = some (f, kpi₀, kfi₀) ∧
            f.keyFrame = true := ⟨zf, by rw [hget_lt ki₀ hki₀lt]; exact hzf, hzkey⟩
        have hgapl : ∀ j, ki₀ < j → ∀ y, (pre ++ [x]).get? j = some y →
            y.1.keyFrame = false := by
          intro j hj y hy
          rcases Nat.lt_trichotomy j pre.length with hlt | heq | hgt
          · rw [hget_lt j hlt] at hy
            exact hgap₀ j hj y hy
          · subst heq
            rw [hget_n] at hy
            obtain rfl : x = y := Option.some.inj hy
            exact hxk'
          · rw [hget_gt j hgt] at hy
            cases hy
        have hkn : ((some (kpi₀, kfi₀, ki₀) : Option (Nat × Nat × Nat)) = none ↔
            ∀ y ∈ pre ++ [x], y.1.keyFrame = false) := by
          constructor
          · intro habs; cases habs
          · intro hall
            have hmem : (zf, kpi₀, kfi₀) ∈ pre := List.get?_mem hzf
            have := hall (zf, kpi₀, kfi₀) (List.mem_append_left [x] hmem)
            rw [hzkey] at this
            cases this
        have hksome : ∀ kpi kfi ki,
            (some (kpi₀, kfi₀, ki₀) : Option (Nat × Nat × Nat)) = some (kpi, kfi, ki) →
            (∃ f, (pre ++ [x]).get? ki = some (f, kpi, kfi) ∧ f.keyFrame = true) ∧
            ∀ j, ki < j → ∀ y, (pre ++ [x]).get? j = some y → y.1.keyFrame = false := by
          intro kpi kfi ki heq
          have h1 : kpi₀ = kpi := congrArg (fun o => (o.getD (0, 0, 0)).1) heq
          have h2 : kfi₀ = kfi := congrArg (fun o => (o.getD (0, 0, 0)).2.1) heq
          have h3 : ki₀ = ki := congrArg (fun o => (o.getD (0, 0, 0)).2.2) heq
          subst h1; subst h2; subst h3
          exact ⟨hkeyl, hgapl⟩
        cases sbest with
        | none =>
            exfalso
            have := hbest_none.mp rfl
            cases this
        | some c =>
            have hupmin : ∀ j, j < pre.length → keySeenB (framesOf pre) j = true →
                c.minDiff ≤ diffAt base req (framesOf pre) j := by
              intro j hj hks
              obtain ⟨sel₀, ki₁, hsel₀, hki₁, hkey₀, hgap₁, hmi, hmd, hmin₀, hstrict₀⟩ :=
                hbest c rfl
              exact hmin₀ j hj hks
            by_cases hup : absDiff (base + ((framesOf pre).map (fun f => f.duration)).sum +
                x.1.ptsDelay) req < c.minDiff
            · have hstrict0 : ∀ j, j < pre.length → keySeenB (framesOf pre) j = true →
                  absDiff (base + ((framesOf pre).map (fun f => f.duration)).sum +
                    x.1.ptsDelay) req < diffAt base req (framesOf pre) j := by
                intro j hj hks
                exact Nat.lt_of_lt_of_le hup (hupmin j hj hks)
              have hstep : (scanStep req x ⟨base + ((framesOf pre).map
                  (fun f => f.duration)).sum, pre.length, some (kpi₀, kfi₀, ki₀),
                  some c⟩).lastKey = some (kpi₀, kfi₀, ki₀) := by
                simp [scanStep, hxk']
              have hstepb : (scanStep req x ⟨base + ((framesOf pre).map
                  (fun f => f.duration)).sum, pre.length, some (kpi₀, kfi₀, ki₀),
                  some c⟩).best =
                  some ⟨pre.length - ki₀,
                    absDiff (base + ((framesOf pre).map (fun f => f.duration)).sum +
                      x.1.ptsDelay) req, kpi₀, kfi₀⟩ := by
                simp [scanStep, hxk', hup]
              refine ⟨hidx', hdts', ?_, ?_, ?_, ?_⟩
              · rw [hstep]; exact hkn
              · rw [hstep]; exact hksome
              · rw [hstepb, hstep]
                constructor
                · intro habs; cases habs
                · intro habs; cases habs
              · rw [hstepb]
                intro c' heq
                obtain rfl : (⟨pre.length - ki₀,
                    absDiff (base + ((framesOf pre).map (fun f => f.duration)).sum +
                      x.1.ptsDelay) req, kpi₀, kfi₀⟩ : Candidate) = c' :=
                  Option.some.inj heq
                refine hnew kpi₀ kfi₀ ki₀ (Nat.le_of_lt hki₀lt) hkeyl ?_ hstrict0
                intro j hj1 hj2 y hy
                exact hgapl j hj1 y hy
            · have hstep : (scanStep req x ⟨base + ((framesOf pre).map
                  (fun f => f.duration)).sum, pre.length, some (kpi₀, kfi₀, ki₀),
                  some c⟩).lastKey = some (kpi₀, kfi₀, ki₀) := by
                simp [scanStep, hxk']
              have hstepb : (scanStep req x ⟨base + ((framesOf pre).map
                  (fun f => f.duration)).sum, pre.length, some (kpi₀, kfi₀, ki₀),
                  some c⟩).best = some c := by
                simp [scanStep, hxk', hup]
              refine ⟨hidx', hdts', ?_, ?_, ?_, ?_⟩
              · rw [hstep]; exact hkn
              · rw [hstep]; exact hksome
              · rw [hstepb, hstep]
                constructor
                · intro habs; cases habs
                · intro habs; cases habs
              · rw [hstepb]
                intro c' heq
                obtain rfl : c = c' := Option.some.inj heq
                exact hkeep c rfl hup

theorem scan_inv (req base : Nat) :
    ∀ (L pre : List (InputFrame × Nat × Nat)) (st : ScanState),
      Inv req base pre st → Inv req base (pre ++ L) (scanFrames req L st) := by
  intro L
  induction L with
  | nil =>
      intro pre st h
      simpa using h
  | cons x rest ih =>
      intro pre st h
      have h1 : Inv req base (pre ++ [x]) (scanStep req x st) := Inv.step req base pre st x h
      have h2 := ih (pre ++ [x]) (scanStep req x st) h1
      have he : (pre ++ [x]) ++ rest = pre ++ (x :: rest) := by simp
      rw [he] at h2
      exact h2

/-- Characterisation of a successful thumb_grabber_truncate_frames run:
there are a selected frame index `sel` and a key-frame index `ki` in the
flattened frame sequence such that `ki` is the nearest key frame at or
before `sel`, the returned skip count is `sel - ki`, the retained chain is
exactly the frames from `ki` on, and `sel` minimises (strictly, among
earlier frames) the pts distance to the adjusted requested time over all
frames at or after the first key frame. -/
theorem truncate_frames_spec (track : MediaTrack) (reqT skip : Nat)
    (retained : List FrameListPart)
    (h : thumb_grabber_truncate_frames track reqT = some (skip, retained)) :
    ∃ sel ki,
      sel < track.parts.flatten.length ∧ ki ≤ sel ∧
      (track.parts.flatten.get? ki).any (fun f => f.keyFrame) = true ∧
      lastKeyBefore track.parts.flatten sel = some ki ∧
      skip = sel - ki ∧
      retained.flatten = track.parts.flatten.drop ki ∧
      (∀ j < track.parts.flatten.length, keySeenB track.parts.flatten j = true →
        diffAt (baseDts track) (adjustedRequest track reqT) track.parts.flatten sel ≤
          diffAt (baseDts track) (adjustedRequest track reqT) track.parts.flatten j) ∧
      (∀ j < sel, keySeenB track.parts.flatten j = true →
        diffAt (baseDts track) (adjustedRequest track reqT) track.parts.flatten sel <
          diffAt (baseDts track) (adjustedRequest track reqT) track.parts.flatten j) := by
  have hfr : framesOf (annotateParts track.parts) = track.parts.flatten :=
    annotateFrom_framesOf track.parts 0
  have hInv : Inv (adjustedRequest track reqT) (baseDts track)
      (annotateParts track.parts)
      (scanFrames (adjustedRequest track reqT) (annotateParts track.parts)
        ⟨baseDts track, 0, none, none⟩) := by
    have h0 := scan_inv (adjustedRequest track reqT) (baseDts track)
      (annotateParts track.parts) [] ⟨baseDts track, 0, none, none⟩
      (Inv.init (adjustedRequest track reqT) (baseDts track))
    simpa using h0
  simp only [thumb_grabber_truncate_frames] at h
  cases hb : (scanFrames (adjustedRequest track reqT) (annotateParts track.parts)
      ⟨baseDts track, 0, none, none⟩).best with
  | none => rw [hb] at h; cases h
  | some c =>
      rw [hb] at h
      have hskip : c.minIndex = skip := congrArg (fun o => (o.getD (0, [])).1) h
      have hret : ((track.parts.getD c.keyPart []).drop c.keyOff) ::
          track.parts.drop (c.keyPart + 1) = retained :=
        congrArg (fun o => (o.getD (0, [])).2) h
      obtain ⟨sel, ki, hsel, hki, ⟨f, hkf, hkey⟩, hgap, hmi, hmd, hmin, hstrict⟩ :=
        hInv.hbest c hb
      rw [hfr] at hmd hmin hstrict
      have hlen : (annotateParts track.parts).length = track.parts.flatten.length := by
        rw [← hfr, framesOf_length]
      refine ⟨sel, ki, by omega, hki, ?_, ?_, ?_, ?_, ?_, ?_⟩
      · have : track.parts.flatten.get? ki = some f := by
          rw [← hfr, framesOf_get?, hkf]
          rfl
        exact optAny_of_get? _ ki f this hkey
      · refine lastKeyBefore_eq track.parts.flatten sel ki hki ?_ ?_
        · have : track.parts.flatten.get? ki = some f := by
            rw [← hfr, framesOf_get?, hkf]
            rfl
          exact optAny_of_get? _ ki f this hkey
        · intro j hj1 hj2 y hy
          rw [← hfr, framesOf_get?] at hy
          cases hz : (annotateParts track.parts).get? j with
          | none => rw [hz] at hy; cases hy
          | some z =>
              rw [hz] at hy
              have hzy : z.1 = y := Option.some.inj hy
              rw [← hzy]
              exact hgap j hj1 hj2 z hz
      · rw [← hskip, hmi]
      · rw [← hret]
        obtain ⟨_, p, hp, hpoff, hdropeq⟩ := annotateFrom_get? track.parts 0 ki f
          c.keyPart c.keyOff hkf
        have hp0 : track.parts.get? c.keyPart = some p := by
          simpa using hp
        have hgetd : track.parts.getD c.keyPart [] = p := by
          rw [List.getD_eq_getElem?_getD, ← List.get?_eq_getElem?, hp0]
          rfl
        rw [hgetd]
        have : p.drop c.keyOff ++ (track.parts.drop (c.keyPart + 1)).flatten =
            track.parts.flatten.drop ki := by
          simpa using hdropeq
        simpa [List.flatten_cons] using this
      · intro j hj hks
        rw [← hmd]
        exact hmin j (by omega) hks
      · intro j hj hks
        rw [← hmd]
        exact hstrict j hj hks

/-! ### C1: the selected frame minimises the pts distance -/

/-- Counterexample to C1 as stated.  In a two-frame index whose first frame
is not a key frame, with requested time 0, frame 0's presentation time is
strictly closer to the adjusted requested time than frame 1's (distance 0
versus 10), yet the scan selects frame 1 (skip count 0 over a retained
index holding only frame 1), because frames seen before any key frame are
never candidates.  Hence the selected frame does not minimise the distance
over all frames of the index, although the index contains a key frame and
the requested time lies within the track's span. -/
theorem truncate_frames_not_global_min :
    thumb_grabber_truncate_frames ⟨[[⟨5, 10, 0, false⟩, ⟨6, 10, 0, true⟩]], 0, 0⟩ 0 =
      some (0, [[⟨6, 10, 0, true⟩]]) ∧
    diffAt 0 0 [⟨5, 10, 0, false⟩, ⟨6, 10, 0, true⟩] 0 <
      diffAt 0 0 [⟨5, 10, 0, false⟩, ⟨6, 10, 0, true⟩] 1 := by
  decide

/-- C1, amended.  For every successful selection, the selected frame (the
frame `skip` positions into the retained index, i.e. at index
`ki + skip` of the original flattened index) has the minimal absolute
difference between its presentation time and the requested time adjusted by
the first frame's pts delay — minimised over all frames *at or after the
first key frame* (frames scanned before any key frame are never
candidates); on an exact tie the earlier-scanned frame wins, since only a
strictly smaller difference replaces the candidate. -/
theorem truncate_frames_selects_closest (track : MediaTrack) (reqT skip : Nat)
    (retained : List FrameListPart)
    (h : thumb_grabber_truncate_frames track reqT = some (skip, retained)) :
    ∃ sel ki,
      sel = ki + skip ∧ sel < track.parts.flatten.length ∧
      retained.flatten = track.parts.flatten.drop ki ∧
      retained.flatten.get? skip = track.parts.flatten.get? sel ∧
      keySeenB track.parts.flatten sel = true ∧
      (∀ j < track.parts.flatten.length, keySeenB track.parts.flatten j = true →
        diffAt (baseDts track) (adjustedRequest track reqT) track.parts.flatten sel ≤
          diffAt (baseDts track) (adjustedRequest track reqT) track.parts.flatten j) ∧
      (∀ j < sel, keySeenB track.parts.flatten j = true →
        diffAt (baseDts track) (adjustedRequest track reqT) track.parts.flatten sel <
          diffAt (baseDts track) (adjustedRequest track reqT) track.parts.flatten j) := by
  obtain ⟨sel, ki, hsel, hki, hkeyki, hlkb, hskip, hret, hmin, hstrict⟩ :=
    truncate_frames_spec track reqT skip retained h
  refine ⟨sel, ki, by omega, hsel, hret, ?_, ?_, hmin, hstrict⟩
  · rw [hret, List.get?_drop]
    have : ki + skip = sel := by omega
    rw [this]
  · obtain ⟨f, hf, hfkey⟩ := optAny_elim track.parts.flatten ki hkeyki
    exact keySeenB_of_key track.parts.flatten ki f hf hfkey sel hki

/-- Witness for truncate_frames_selects_closest: two frames of duration 10
starting at decode timestamp 0, key frame first; requested time 12 selects
the second frame (skip count 1). -/
theorem truncate_frames_selects_closest_witness :
    ∃ sel ki,
      sel = ki + 1 ∧
      sel < ([[⟨2, 10, 0, true⟩, ⟨3, 10, 0, false⟩]] :
        List FrameListPart).flatten.length ∧
      ([[⟨2, 10, 0, true⟩, ⟨3, 10, 0, false⟩]] : List FrameListPart).flatten =
        ([[⟨2, 10, 0, true⟩, ⟨3, 10, 0, false⟩]] :
          List FrameListPart).flatten.drop ki ∧
      ([[⟨2, 10, 0, true⟩, ⟨3, 10, 0, false⟩]] :
        List FrameListPart).flatten.get? 1 =
        ([[⟨2, 10, 0, true⟩, ⟨3, 10, 0, false⟩]] :
          List FrameListPart).flatten.get? sel ∧
      keySeenB ([[⟨2, 10, 0, true⟩, ⟨3, 10, 0, false⟩]] :
        List FrameListPart).flatten sel = true ∧
      (∀ j < ([[⟨2, 10, 0, true⟩, ⟨3, 10, 0, false⟩]] :
          List FrameListPart).flatten.length,
        keySeenB ([[⟨2, 10, 0, true⟩, ⟨3, 10, 0, false⟩]] :
          List FrameListPart).flatten j = true →
        diffAt (baseDts ⟨[[⟨2, 10, 0, true⟩, ⟨3, 10, 0, false⟩]], 0, 0⟩)
            (adjustedRequest ⟨[[⟨2, 10, 0, true⟩, ⟨3, 10, 0, false⟩]], 0, 0⟩ 12)
            ([[⟨2, 10, 0, true⟩, ⟨3, 10, 0, false⟩]] : List FrameListPart).flatten sel ≤
          diffAt (baseDts ⟨[[⟨2, 10, 0, true⟩, ⟨3, 10, 0, false⟩]], 0, 0⟩)
            (adjustedRequest ⟨[[⟨2, 10, 0, true⟩, ⟨3, 10, 0, false⟩]], 0, 0⟩ 12)
            ([[⟨2, 10, 0, true⟩, ⟨3, 10, 0, false⟩]] : List FrameListPart).flatten j) ∧
      (∀ j < sel,
        keySeenB ([[⟨2, 10, 0, true⟩, ⟨3, 10, 0, false⟩]] :
          List FrameListPart).flatten j = true →
        diffAt (baseDts ⟨[[⟨2, 10, 0, true⟩, ⟨3, 10, 0, false⟩]], 0, 0⟩)
            (adjustedRequest ⟨[[⟨2, 10, 0, true⟩, ⟨3, 10, 0, false⟩]], 0, 0⟩ 12)
            ([[⟨2, 10, 0, true⟩, ⟨3, 10, 0, false⟩]] : List FrameListPart).flatten sel <
          diffAt (baseDts ⟨[[⟨2, 10, 0, true⟩, ⟨3, 10, 0, false⟩]], 0, 0⟩)
            (adjustedRequest ⟨[[⟨2, 10, 0, true⟩, ⟨3, 10, 0, false⟩]], 0, 0⟩ 12)
            ([[⟨2, 10, 0, true⟩, ⟨3, 10, 0, false⟩]] : List FrameListPart).flatten j) :=
  truncate_frames_selects_closest ⟨[[⟨2, 10, 0, true⟩, ⟨3, 10, 0, false⟩]], 0, 0⟩ 12 1
    [[⟨2, 10, 0, true⟩, ⟨3, 10, 0, false⟩]] (by decide)

/-! ### C2: the retained index starts at the nearest preceding key frame -/

/-- C2.  After a successful thumb_grabber_truncate_frames, the retained
frame chain is exactly the suffix of the original flattened frame sequence
starting at the key frame nearest at-or-before the selected frame, so it
begins with a key frame and every frame before that key frame has been
discarded (and hence can never be decoded, since the engine only walks the
retained chain); the returned skip count is exactly the number of frames
from that key frame (inclusive) to the selected frame (exclusive). -/
theorem truncate_frames_key_and_skip (track : MediaTrack) (reqT skip : Nat)
    (retained : List FrameListPart)
    (h : thumb_grabber_truncate_frames track reqT = some (skip, retained)) :
    ∃ sel ki,
      ki ≤ sel ∧ sel < track.parts.flatten.length ∧
      retained.flatten = track.parts.flatten.drop ki ∧
      (retained.flatten.head?).any (fun f => f.keyFrame) = true ∧
      lastKeyBefore track.parts.flatten sel = some ki ∧
      skip = sel - ki := by
  obtain ⟨sel, ki, hsel, hki, hkeyki, hlkb, hskip, hret, _, _⟩ :=
    truncate_frames_spec track reqT skip retained h
  refine ⟨sel, ki, hki, hsel, hret, ?_, hlkb, hskip⟩
  have hh : retained.flatten.head? = track.parts.flatten.get? ki := by
    rw [hret, ← List.get?_zero, List.get?_drop]
    simp
  rw [hh]
  exact hkeyki

/-- Witness for truncate_frames_key_and_skip: a two-part chain with key
frames at indices 0 and 3; requested time 40 selects frame 4, retains the
suffix from the key frame at index 3 and yields skip count 1. -/
theorem truncate_frames_key_and_skip_witness :
    ∃ sel ki,
      ki ≤ sel ∧
      sel < ([[⟨1, 10, 0, true⟩, ⟨2, 10, 0, false⟩, ⟨3, 10, 0, false⟩],
        [⟨7, 10, 0, true⟩, ⟨8, 10, 0, false⟩]] : List FrameListPart).flatten.length ∧
      ([[⟨7, 10, 0, true⟩, ⟨8, 10, 0, false⟩]] : List FrameListPart).flatten =
        ([[⟨1, 10, 0, true⟩, ⟨2, 10, 0, false⟩, ⟨3, 10, 0, false⟩],
          [⟨7, 10, 0, true⟩, ⟨8, 10, 0, false⟩]] :
            List FrameListPart).flatten.drop ki ∧
      (([[⟨7, 10, 0, true⟩, ⟨8, 10, 0, false⟩]] :
        List FrameListPart).flatten.head?).any (fun f => f.keyFrame) = true ∧
      lastKeyBefore ([[⟨1, 10, 0, true⟩, ⟨2, 10, 0, false⟩, ⟨3, 10, 0, false⟩],
        [⟨7, 10, 0, true⟩, ⟨8, 10, 0, false⟩]] : List FrameListPart).flatten sel =
        some ki ∧
      1 = sel - ki :=
  truncate_frames_key_and_skip
    ⟨[[⟨1, 10, 0, true⟩, ⟨2, 10, 0, false⟩, ⟨3, 10, 0, false⟩],
      [⟨7, 10, 0, true⟩, ⟨8, 10, 0, false⟩]], 0, 0⟩ 40 1
    [[⟨7, 10, 0, true⟩, ⟨8, 10, 0, false⟩]] (by decide)

/-! ### C9: empty or key-frame-less index fails before any allocation -/

/-- C9.  If the frame index holds no key frame at all — in particular if it
holds no frame — the selection scan never records a candidate, so
thumb_grabber_truncate_frames fails with the unexpected-status
("did not find any frames") condition, and thumb_grabber_init_state
propagates that failure before performing any resource acquisition: no
state allocation, no cleanup registration, no decoder or encoder
initialisation and no decoded-picture allocation happens. -/
theorem no_key_frame_fails_before_alloc (env : InitEnv) (track : MediaTrack) (reqT : Nat)
    (hall : ∀ f ∈ track.parts.flatten, f.keyFrame = false)
    (hdec : env.decoderAvailable = true) :
    thumb_grabber_truncate_frames track reqT = none ∧
    thumb_grabber_init_state env track reqT = some (.unexpected, [], none) := by
  have hfr : framesOf (annotateParts track.parts) = track.parts.flatten :=
    annotateFrom_framesOf track.parts 0
  have hInv : Inv (adjustedRequest track reqT) (baseDts track)
      (annotateParts track.parts)
      (scanFrames (adjustedRequest track reqT) (annotateParts track.parts)
        ⟨baseDts track, 0, none, none⟩) := by
    have h0 := scan_inv (adjustedRequest track reqT) (baseDts track)
      (annotateParts track.parts) [] ⟨baseDts track, 0, none, none⟩
      (Inv.init (adjustedRequest track reqT) (baseDts track))
    simpa using h0
  have hallA : ∀ x ∈ annotateParts track.parts, x.1.keyFrame = false := by
    intro x hx
    refine hall x.1 ?_
    rw [← hfr]
    exact List.mem_map_of_mem (fun y => y.1) hx
  have hlk : (scanFrames (adjustedRequest track reqT) (annotateParts track.parts)
      ⟨baseDts track, 0, none, none⟩).lastKey = none := hInv.hkey_none.mpr hallA
  have hbn : (scanFrames (adjustedRequest track reqT) (annotateParts track.parts)
      ⟨baseDts track, 0, none, none⟩).best = none := hInv.hbest_none.mpr hlk
  have htrunc : thumb_grabber_truncate_frames track reqT = none := by
    simp only [thumb_grabber_truncate_frames, hbn]
  refine ⟨htrunc, ?_⟩
  simp only [thumb_grabber_init_state, hdec, htrunc, Bool.not_true, Bool.false_eq_true,
    if_false]

/-- Witness for no_key_frame_fails_before_alloc: an index with a single
empty part (zero frames) and an available decoder. -/
theorem no_key_frame_fails_before_alloc_witness :
    thumb_grabber_truncate_frames ⟨[[]], 0, 0⟩ 5 = none ∧
    thumb_grabber_init_state ⟨true, true, true, .ok, .ok, true⟩ ⟨[[]], 0, 0⟩ 5 =
      some (.unexpected, [], none) :=
  no_key_frame_fails_before_alloc ⟨true, true, true, .ok, .ok, true⟩ ⟨[[]], 0, 0⟩ 5
    (by decide) rfl

/-! ### C3: delivery discipline of the engine -/

theorem deliverCount_eq_zero (δ : List TraceEvent)
    (h : ∀ bs, TraceEvent.deliver bs ∉ δ) : deliverCount δ = 0 := by
  rw [deliverCount, List.countP_eq_zero]
  intro e he
  cases e with
  | deliver bs => exact absurd he (h bs)
  | startFrame f => simp
  | allocBuffer n => simp
  | decodeCall a b c => simp
  | flushCall => simp
  | encodeCall => simp

theorem deliverCount_append (δ₁ δ₂ : List TraceEvent) :
    deliverCount (δ₁ ++ δ₂) = deliverCount δ₁ + deliverCount δ₂ :=
  List.countP_append _ _ _

theorem TraceOut.clean (env : Env) (st : VodStatus) (δ : List TraceEvent)
    (hnd : ∀ bs, TraceEvent.deliver bs ∉ δ) (hne : TraceEvent.encodeCall ∉ δ)
    (hnok : st ≠ .ok) : TraceOut env st δ := by
  refine ⟨?_, ?_, ?_, ?_⟩
  · rw [deliverCount_eq_zero δ hnd]; omega
  · intro bs hbs; exact absurd hbs (hnd bs)
  · intro hok; exact absurd hok hnok
  · intro _; exact ⟨hnd, fun hmem => absurd hmem hne⟩

theorem TraceOut.preClean (env : Env) (st : VodStatus) (δ₀ δ₁ : List TraceEvent)
    (hnd : ∀ bs, TraceEvent.deliver bs ∉ δ₀) (hne : TraceEvent.encodeCall ∉ δ₀)
    (h : TraceOut env st δ₁) : TraceOut env st (δ₀ ++ δ₁) := by
  obtain ⟨h1, h2, h3, h4⟩ := h
  refine ⟨?_, ?_, ?_, ?_⟩
  · rw [deliverCount_append, deliverCount_eq_zero δ₀ hnd]
    omega
  · intro bs hbs
    rcases List.mem_append.mp hbs with hm | hm
    · exact absurd hm (hnd bs)
    · obtain ⟨ha, hb, hc⟩ := h2 bs hm
      refine ⟨ha, hb, ?_⟩
      rw [List.getLast?_append, hc]
      rfl
  · intro hok
    obtain ⟨bs, ha, hb⟩ := h3 hok
    exact ⟨bs, ha, List.mem_append_right δ₀ hb⟩
  · intro hnp
    obtain ⟨ha, hb⟩ := h4 hnp
    constructor
    · intro bs hbs
      rcases List.mem_append.mp hbs with hm | hm
      · exact absurd hm (hnd bs)
      · exact absurd hm (ha bs)
    · intro hmem
      rcases List.mem_append.mp hmem with hm | hm
      · exact absurd hm hne
      · exact hb hm

theorem startFrame_only_clean (δ : List TraceEvent)
    (h : ∀ e ∈ δ, ∃ g, e = TraceEvent.startFrame g) :
    (∀ bs, TraceEvent.deliver bs ∉ δ) ∧ TraceEvent.encodeCall ∉ δ := by
  constructor
  · intro bs hbs
    obtain ⟨g, hg⟩ := h _ hbs
    cases hg
  · intro hbs
    obtain ⟨g, hg⟩ := h _ hbs
    cases hg

theorem startFrameStep_cases (env : Env) (s1 : GrabberState) (tr : List TraceEvent) :
    startFrameStep env s1 tr = none ∨
    (∃ st s2 δ, startFrameStep env s1 tr = some (.inl (st, s2, tr ++ δ)) ∧ st ≠ .ok ∧
      (∀ e ∈ δ, ∃ g, e = TraceEvent.startFrame g)) ∨
    (∃ s2 δ f, startFrameStep env s1 tr = some (.inr (s2, tr ++ δ, f)) ∧
      (∀ e ∈ δ, ∃ g, e = TraceEvent.startFrame g)) := by
  cases hcp : s1.curPart with
  | nil =>
      left
      simp [startFrameStep, hcp]
  | cons f fs =>
      by_cases hrc : env.starts.getD s1.startIdx .ok ≠ .ok
      · have hrc' : ¬(env.starts[s1.startIdx]?.getD VodStatus.ok = VodStatus.ok) := by
          simpa [List.getD] using hrc
        right; left
        refine ⟨env.starts.getD s1.startIdx .ok, { s1 with startIdx := s1.startIdx + 1 },
          [TraceEvent.startFrame f], ?_, hrc, ?_⟩
        · simp [startFrameStep, hcp, hrc', List.getD]
        · intro e he
          rw [List.mem_singleton.mp he]
          exact ⟨f, rfl⟩
      · have hrc' : env.starts[s1.startIdx]?.getD VodStatus.ok = VodStatus.ok := by
          have := Decidable.not_not.mp hrc
          simpa [List.getD] using this
        right; right
        refine ⟨{ s1 with startIdx := s1.startIdx + 1, frameStarted := true },
          [TraceEvent.startFrame f], f, ?_, ?_⟩
        · simp [startFrameStep, hcp, hrc', List.getD]
        · intro e he
          rw [List.mem_singleton.mp he]
          exact ⟨f, rfl⟩

theorem startPhase_cases (env : Env) (s : GrabberState) (tr : List TraceEvent) :
    startPhase env s tr = none ∨
    (∃ st s1 δ, startPhase env s tr = some (.inl (st, s1, tr ++ δ)) ∧ st ≠ .ok ∧
      (∀ e ∈ δ, ∃ g, e = TraceEvent.startFrame g)) ∨
    (∃ s1 δ f, startPhase env s tr = some (.inr (s1, tr ++ δ, f)) ∧
      (∀ e ∈ δ, ∃ g, e = TraceEvent.startFrame g)) := by
  by_cases hst : s.frameStarted = true
  · cases hcp : s.curPart with
    | nil =>
        left
        simp [startPhase, hst, hcp]
    | cons f fs =>
        right; right
        refine ⟨s, [], f, ?_, by intro e he; cases he⟩
        simp [startPhase, hst, hcp]
  · cases hcp : s.curPart with
    | nil =>
        cases hnp : s.nextParts with
        | nil =>
            left
            simp [startPhase, hst, hcp, hnp]
        | cons p rest =>
            have heq : startPhase env s tr =
                startFrameStep env { s with curPart := p, nextParts := rest } tr := by
              simp [startPhase, hst, hcp, hnp]
            rw [heq]
            exact startFrameStep_cases env _ tr
    | cons f fs =>
        have heq : startPhase env s tr = startFrameStep env s tr := by
          simp [startPhase, hst, hcp]
        rw [heq]
        exact startFrameStep_cases env s tr

theorem write_frame_core (env : Env) (s : GrabberState) (tr : List TraceEvent)
    (fl : VodStatus × Nat × Nat) :
    ∃ δ, (if fl.1 ≠ VodStatus.ok then
        (fl.1, { s with missingFrames := fl.2.1, decodeIdx := fl.2.2 },
          tr ++ List.replicate (fl.2.2 - s.decodeIdx) TraceEvent.flushCall)
      else
        match env.encode with
        | .err => (VodStatus.unexpected,
            { s with missingFrames := fl.2.1, decodeIdx := fl.2.2 },
            (tr ++ List.replicate (fl.2.2 - s.decodeIdx) TraceEvent.flushCall) ++
              [TraceEvent.encodeCall])
        | .noPacket => (VodStatus.unexpected,
            { s with missingFrames := fl.2.1, decodeIdx := fl.2.2 },
            (tr ++ List.replicate (fl.2.2 - s.decodeIdx) TraceEvent.flushCall) ++
              [TraceEvent.encodeCall])
        | .packet bs => (env.writeStatus,
            { s with missingFrames := fl.2.1, decodeIdx := fl.2.2 },
            ((tr ++ List.replicate (fl.2.2 - s.decodeIdx) TraceEvent.flushCall) ++
              [TraceEvent.encodeCall]) ++ [TraceEvent.deliver bs])).2.2 = tr ++ δ ∧
      TraceOut env (if fl.1 ≠ VodStatus.ok then
        (fl.1, { s with missingFrames := fl.2.1, decodeIdx := fl.2.2 },
          tr ++ List.replicate (fl.2.2 - s.decodeIdx) TraceEvent.flushCall)
      else
        match env.encode with
        | .err => (VodStatus.unexpected,
            { s with missingFrames := fl.2.1, decodeIdx := fl.2.2 },
            (tr ++ List.replicate (fl.2.2 - s.decodeIdx) TraceEvent.flushCall) ++
              [TraceEvent.encodeCall])
        | .noPacket => (VodStatus.unexpected,
            { s with missingFrames := fl.2.1, decodeIdx := fl.2.2 },
            (tr ++ List.replicate (fl.2.2 - s.decodeIdx) TraceEvent.flushCall) ++
              [TraceEvent.encodeCall])
        | .packet bs => (env.writeStatus,
            { s with missingFrames := fl.2.1, decodeIdx := fl.2.2 },
            ((tr ++ List.replicate (fl.2.2 - s.decodeIdx) TraceEvent.flushCall) ++
              [TraceEvent.encodeCall]) ++ [TraceEvent.deliver bs])).1 δ := by
  have hclean_repl : ∀ n, (∀ bs, TraceEvent.deliver bs ∉
      List.replicate n TraceEvent.flushCall) ∧
      TraceEvent.encodeCall ∉ List.replicate n TraceEvent.flushCall := by
    intro n
    constructor
    · intro bs hbs
      have := List.eq_of_mem_replicate hbs
      cases this
    · intro hbs
      have := List.eq_of_mem_replicate hbs
      cases this
  by_cases hne : fl.1 ≠ VodStatus.ok
  · rw [if_pos hne]
    refine ⟨List.replicate (fl.2.2 - s.decodeIdx) TraceEvent.flushCall, rfl, ?_⟩
    exact TraceOut.clean env _ _ (hclean_repl _).1 (hclean_repl _).2 hne
  · rw [if_neg hne]
    cases henc : env.encode with
    | err =>
        refine ⟨List.replicate (fl.2.2 - s.decodeIdx) TraceEvent.flushCall ++
          [TraceEvent.encodeCall], by simp, ?_⟩
        refine ⟨?_, ?_, ?_, ?_⟩
        · have hz2 : deliverCount [TraceEvent.encodeCall] = 0 := by
            refine deliverCount_eq_zero _ ?_
            intro bs hbs
            rw [List.mem_singleton] at hbs
            cases hbs
          rw [deliverCount_append, deliverCount_eq_zero _ (hclean_repl _).1, hz2]
          omega
        · intro bs hbs
          rcases List.mem_append.mp hbs with hm | hm
          · exact absurd hm ((hclean_repl _).1 bs)
          · rw [List.mem_singleton] at hm
            cases hm
        · intro hok; cases hok
        · intro hnp
          rw [henc] at hnp
          cases hnp
    | noPacket =>
        refine ⟨List.replicate (fl.2.2 - s.decodeIdx) TraceEvent.flushCall ++
          [TraceEvent.encodeCall], by simp, ?_⟩
        refine ⟨?_, ?_, ?_, ?_⟩
        · have hz2 : deliverCount [TraceEvent.encodeCall] = 0 := by
            refine deliverCount_eq_zero _ ?_
            intro bs hbs
            rw [List.mem_singleton] at hbs
            cases hbs
          rw [deliverCount_append, deliverCount_eq_zero _ (hclean_repl _).1, hz2]
          omega
        · intro bs hbs
          rcases List.mem_append.mp hbs with hm | hm
          · exact absurd hm ((hclean_repl _).1 bs)
          · rw [List.mem_singleton] at hm
            cases hm
        · intro hok; cases hok
        · intro _
          constructor
          · intro bs hbs
            rcases List.mem_append.mp hbs with hm | hm
            · exact absurd hm ((hclean_repl _).1 bs)
            · rw [List.mem_singleton] at hm
              cases hm
          · intro _; rfl
    | packet bs =>
        refine ⟨(List.replicate (fl.2.2 - s.decodeIdx) TraceEvent.flushCall ++
          [TraceEvent.encodeCall]) ++ [TraceEvent.deliver bs], by simp, ?_⟩
        refine ⟨?_, ?_, ?_, ?_⟩
        · have hz2 : deliverCount [TraceEvent.encodeCall] = 0 := by
            refine deliverCount_eq_zero _ ?_
            intro bs' hbs
            rw [List.mem_singleton] at hbs
            cases hbs
          rw [deliverCount_append, deliverCount_append,
            deliverCount_eq_zero _ (hclean_repl _).1, hz2]
          simp [deliverCount]
        · intro bs' hbs
          rcases List.mem_append.mp hbs with hm | hm
          · rcases List.mem_append.mp hm with hm2 | hm2
            · exact absurd hm2 ((hclean_repl _).1 bs')
            · rw [List.mem_singleton] at hm2
              cases hm2
          · rw [List.mem_singleton] at hm
            have hbs' : bs' = bs := by
              have h2 : TraceEvent.deliver bs' = TraceEvent.deliver bs := hm
              cases h2
              rfl
            subst hbs'
            exact ⟨henc, rfl, List.getLast?_concat _⟩
        · intro _
          exact ⟨bs, henc, List.mem_append_right _ (List.mem_singleton.mpr rfl)⟩
        · intro hnp
          rw [henc] at hnp
          cases hnp

theorem write_frame_trace (env : Env) (s : GrabberState) (tr : List TraceEvent) :
    ∃ δ, (thumb_grabber_write_frame env s tr).2.2 = tr ++ δ ∧
      TraceOut env (thumb_grabber_write_frame env s tr).1 δ :=
  write_frame_core env s tr
    (if s.missingFrames > 0 then
      thumb_grabber_decode_flush env.decodeAt s.missingFrames s.decodeIdx
    else (.ok, s.missingFrames, s.decodeIdx))

/-- Delivery discipline of the decode-then-branch tail of the processing
loop (the code following a completed frame): a decode error ends the run
without delivering; reaching the target frame hands over to write_frame;
otherwise the loop continues. -/
theorem decode_branch_trace (env : Env) (rest : List ReadEvent)
    (ihP : ∀ (s : GrabberState) (pd : Bool) (tr : List TraceEvent) st' s' tr',
      processGo env rest s pd tr = some (st', s', tr') →
      ∃ δ, tr' = tr ++ δ ∧ TraceOut env st' δ)
    (dout : DecodeFrameOut) (s3 : GrabberState) (direct : Bool) (f : InputFrame)
    (tr δ0 : List TraceEvent)
    (hc1 : ∀ bs, TraceEvent.deliver bs ∉ δ0) (hc2 : TraceEvent.encodeCall ∉ δ0)
    (st' : VodStatus) (s' : GrabberState) (tr' : List TraceEvent)
    (h : (if dout.status ≠ .ok then
            some (dout.status, s3, (tr ++ δ0) ++ [TraceEvent.decodeCall dout.sent direct f])
          else if s3.skipCount = 0 then
            some (thumb_grabber_write_frame env s3
              ((tr ++ δ0) ++ [TraceEvent.decodeCall dout.sent direct f]))
          else processGo env rest
            { s3 with
                skipCount := s3.skipCount - 1
                curPart := s3.curPart.tail
                frameStarted := false } true
            ((tr ++ δ0) ++ [TraceEvent.decodeCall dout.sent direct f])) =
        some (st', s', tr')) :
    ∃ δ, tr' = tr ++ δ ∧ TraceOut env st' δ := by
  have hcd1 : ∀ bs, TraceEvent.deliver bs ∉
      δ0 ++ [TraceEvent.decodeCall dout.sent direct f] := by
    intro bs hbs
    rcases List.mem_append.mp hbs with hm | hm
    · exact absurd hm (hc1 bs)
    · rw [List.mem_singleton] at hm
      cases hm
  have hcd2 : TraceEvent.encodeCall ∉
      δ0 ++ [TraceEvent.decodeCall dout.sent direct f] := by
    intro hbs
    rcases List.mem_append.mp hbs with hm | hm
    · exact absurd hm hc2
    · rw [List.mem_singleton] at hm
      cases hm
  by_cases hst : dout.status ≠ .ok
  · rw [if_pos hst] at h
    obtain ⟨h1, h2, h3⟩ : dout.status = st' ∧ s3 = s' ∧
        (tr ++ δ0) ++ [TraceEvent.decodeCall dout.sent direct f] = tr' := by
      have := Option.some.inj h
      exact ⟨congrArg Prod.fst this, congrArg (fun z => z.2.1) this,
        congrArg (fun z => z.2.2) this⟩
    subst h1; subst h3
    refine ⟨δ0 ++ [TraceEvent.decodeCall dout.sent direct f], by simp, ?_⟩
    exact TraceOut.clean env _ _ hcd1 hcd2 hst
  · rw [if_neg hst] at h
    by_cases hskip : s3.skipCount = 0
    · rw [if_pos hskip] at h
      obtain ⟨δw, hw, hto⟩ := write_frame_trace env s3
        ((tr ++ δ0) ++ [TraceEvent.decodeCall dout.sent direct f])
      obtain ⟨h1, h2, h3⟩ : (thumb_grabber_write_frame env s3
          ((tr ++ δ0) ++ [TraceEvent.decodeCall dout.sent direct f])).1 = st' ∧
          _ = s' ∧ (thumb_grabber_write_frame env s3
          ((tr ++ δ0) ++ [TraceEvent.decodeCall dout.sent direct f])).2.2 = tr' := by
        have := Option.some.inj h
        exact ⟨congrArg Prod.fst this, congrArg (fun z => z.2.1) this,
          congrArg (fun z => z.2.2) this⟩
      subst h1
      rw [← h3, hw]
      refine ⟨(δ0 ++ [TraceEvent.decodeCall dout.sent direct f]) ++ δw, by simp, ?_⟩
      exact TraceOut.preClean env _ _ δw hcd1 hcd2 hto
    · rw [if_neg hskip] at h
      obtain ⟨δ1, hδ1, hto⟩ := ihP _ true _ st' s' tr' h
      refine ⟨(δ0 ++ [TraceEvent.decodeCall dout.sent direct f]) ++ δ1, ?_, ?_⟩
      · rw [hδ1]
        simp [List.append_assoc]
      · exact TraceOut.preClean env st' _ δ1 hcd1 hcd2 hto

theorem processGo_trace (env : Env) :
    ∀ (rds : List ReadEvent), rds.all readOkFree = true →
      ∀ (s : GrabberState) (pd : Bool) (tr : List TraceEvent)
        (st' : VodStatus) (s' : GrabberState) (tr' : List TraceEvent),
        processGo env rds s pd tr = some (st', s', tr') →
        ∃ δ, tr' = tr ++ δ ∧ TraceOut env st' δ := by
  have hterm : ∀ (v : VodStatus) (s1 s' : GrabberState) (tr δ0 tr' : List TraceEvent),
      (∀ bs, TraceEvent.deliver bs ∉ δ0) → TraceEvent.encodeCall ∉ δ0 → v ≠ .ok →
      some (v, s1, tr ++ δ0) = some (v, s', tr') →
      ∃ δ, tr' = tr ++ δ ∧ TraceOut env v δ := by
    intro v s1 s' tr δ0 tr' hc1 hc2 hnok h
    have h3 : tr ++ δ0 = tr' := congrArg (fun z => z.2.2) (Option.some.inj h)
    subst h3
    exact ⟨δ0, rfl, TraceOut.clean env v δ0 hc1 hc2 hnok⟩
  intro rds
  induction rds with
  | nil =>
      intro _ s pd tr st' s' tr' h
      rcases startPhase_cases env s tr with hsp | ⟨st0, s1, δ0, hsp, hst0, hδ0⟩ |
        ⟨s1, δ0, f, hsp, hδ0⟩
      · simp only [processGo, hsp] at h
        cases h
      · simp only [processGo, hsp] at h
        obtain ⟨hc1, hc2⟩ := startFrame_only_clean δ0 hδ0
        obtain rfl : st0 = st' := congrArg Prod.fst (Option.some.inj h)
        exact hterm st0 s1 s' tr δ0 tr' hc1 hc2 hst0 h
      · simp only [processGo, hsp] at h
        obtain ⟨hc1, hc2⟩ := startFrame_only_clean δ0 hδ0
        split at h
        · obtain rfl : VodStatus.badData = st' := congrArg Prod.fst (Option.some.inj h)
          exact hterm _ s1 s' tr δ0 tr' hc1 hc2 (by intro hh; cases hh) h
        · obtain rfl : VodStatus.again = st' := congrArg Prod.fst (Option.some.inj h)
          exact hterm _ _ s' tr δ0 tr' hc1 hc2 (by intro hh; cases hh) h
  | cons ev rest ih =>
      intro hwf s pd tr st' s' tr' h
      have hwf2 : readOkFree ev = true ∧ rest.all readOkFree = true := by
        rw [List.all_cons] at hwf
        exact ⟨((Bool.and_eq_true _ _).mp hwf).1, ((Bool.and_eq_true _ _).mp hwf).2⟩
      cases ev with
      | again =>
          rcases startPhase_cases env s tr with hsp | ⟨st0, s1, δ0, hsp, hst0, hδ0⟩ |
            ⟨s1, δ0, f, hsp, hδ0⟩
          · simp only [processGo, hsp] at h
            cases h
          · simp only [processGo, hsp] at h
            obtain ⟨hc1, hc2⟩ := startFrame_only_clean δ0 hδ0
            obtain rfl : st0 = st' := congrArg Prod.fst (Option.some.inj h)
            exact hterm st0 s1 s' tr δ0 tr' hc1 hc2 hst0 h
          · simp only [processGo, hsp] at h
            obtain ⟨hc1, hc2⟩ := startFrame_only_clean δ0 hδ0
            split at h
            · obtain rfl : VodStatus.badData = st' := congrArg Prod.fst (Option.some.inj h)
              exact hterm _ s1 s' tr δ0 tr' hc1 hc2 (by intro hh; cases hh) h
            · obtain rfl : VodStatus.again = st' := congrArg Prod.fst (Option.some.inj h)
              exact hterm _ _ s' tr δ0 tr' hc1 hc2 (by intro hh; cases hh) h
      | errStat st0 =>
          have hst0 : st0 ≠ .ok := by
            intro hh
            subst hh
            rw [show readOkFree (ReadEvent.errStat VodStatus.ok) = false from rfl] at hwf2
            cases hwf2.1
          rcases startPhase_cases env s tr with hsp | ⟨st1, s1, δ0, hsp, hst1, hδ0⟩ |
            ⟨s1, δ0, f, hsp, hδ0⟩
          · simp only [processGo, hsp] at h
            cases h
          · simp only [processGo, hsp] at h
            obtain ⟨hc1, hc2⟩ := startFrame_only_clean δ0 hδ0
            obtain rfl : st1 = st' := congrArg Prod.fst (Option.some.inj h)
            exact hterm st1 s1 s' tr δ0 tr' hc1 hc2 hst1 h
          · simp only [processGo, hsp] at h
            obtain ⟨hc1, hc2⟩ := startFrame_only_clean δ0 hδ0
            obtain rfl : st0 = st' := congrArg Prod.fst (Option.some.inj h)
            exact hterm st0 s1 s' tr δ0 tr' hc1 hc2 hst0 h
      | chunk bytes frameDone =>
          rcases startPhase_cases env s tr with hsp | ⟨st1, s1, δ0, hsp, hst1, hδ0⟩ |
            ⟨s1, δ0, f, hsp, hδ0⟩
          · simp only [processGo, hsp] at h
            cases h
          · simp only [processGo, hsp] at h
            obtain ⟨hc1, hc2⟩ := startFrame_only_clean δ0 hδ0
            obtain rfl : st1 = st' := congrArg Prod.fst (Option.some.inj h)
            exact hterm st1 s1 s' tr δ0 tr' hc1 hc2 hst1 h
          · obtain ⟨hc1, hc2⟩ := startFrame_only_clean δ0 hδ0
            cases frameDone with
            | false =>
                simp only [processGo, hsp, Bool.not_false, if_true] at h
                cases hfb : s1.frameBuffer with
                | none =>
                    simp only [hfb] at h
                    by_cases halloc : env.allocOk = true
                    · rw [if_pos halloc] at h
                      obtain ⟨δ1, hδ1, hto⟩ := ih hwf2.2 _ true _ st' s' tr' h
                      refine ⟨(δ0 ++ [TraceEvent.allocBuffer (s1.maxFrameSize + env.pad)])
                        ++ δ1, ?_, ?_⟩
                      · rw [hδ1]
                        simp [List.append_assoc]
                      · refine TraceOut.preClean env st' _ δ1 ?_ ?_ hto
                        · intro bs hbs
                          rcases List.mem_append.mp hbs with hm | hm
                          · exact absurd hm (hc1 bs)
                          · rw [List.mem_singleton] at hm
                            cases hm
                        · intro hbs
                          rcases List.mem_append.mp hbs with hm | hm
                          · exact absurd hm hc2
                          · rw [List.mem_singleton] at hm
                            cases hm
                    · rw [if_neg halloc] at h
                      obtain rfl : VodStatus.allocFailed = st' :=
                        congrArg Prod.fst (Option.some.inj h)
                      exact hterm _ s1 s' tr δ0 tr' hc1 hc2 (by intro hh; cases hh) h
                | some buf =>
                    simp only [hfb] at h
                    obtain ⟨δ1, hδ1, hto⟩ := ih hwf2.2 _ true _ st' s' tr' h
                    exact ⟨δ0 ++ δ1, by rw [hδ1, List.append_assoc],
                      TraceOut.preClean env st' δ0 δ1 hc1 hc2 hto⟩
            | true =>
                simp only [processGo, hsp, Bool.not_true, Bool.false_eq_true, if_false] at h
                by_cases hpos : s1.curFramePos ≠ 0
                · rw [if_pos hpos] at h
                  cases hfb : s1.frameBuffer with
                  | none =>
                      simp only [hfb] at h
                      cases h
                  | some buf =>
                      simp only [hfb] at h
                      exact decode_branch_trace env rest (ih hwf2.2) _ _ _ _ tr δ0
                        hc1 hc2 st' s' tr' h
                · rw [if_neg hpos] at h
                  exact decode_branch_trace env rest (ih hwf2.2) _ _ _ _ tr δ0
                    hc1 hc2 st' s' tr' h

/-- C3, amended.  In every completed thumb_grabber_process run the delivery
callback is invoked at most once; it is invoked (exactly once, with the
encoder's output packet bytes, as the run's final action — no frame is
processed after it) if and only if the encoder produced a packet and the
run reached it, in which case the run's status is exactly the status the
callback returned; consequently a successful (VOD_OK) run has exactly one
invocation, and when the encoder returns zero packets the run fails with
the unexpected-state status and the callback is never invoked.  (The
original claim's "invoked exactly once iff the run succeeds" fails in the
one direction: when the callback itself returns an error the run fails even
though the callback was invoked.) -/
theorem process_delivery (env : Env) (s : GrabberState)
    (st' : VodStatus) (s' : GrabberState) (tr' : List TraceEvent)
    (hwf : env.reads.all readOkFree = true)
    (h : thumb_grabber_process env s = some (st', s', tr')) :
    deliverCount tr' ≤ 1 ∧
    (∀ bs, TraceEvent.deliver bs ∈ tr' →
      env.encode = .packet bs ∧ st' = env.writeStatus ∧
      tr'.getLast? = some (TraceEvent.deliver bs)) ∧
    (st' = .ok → ∃ bs, env.encode = .packet bs ∧ TraceEvent.deliver bs ∈ tr' ∧
      env.writeStatus = .ok) ∧
    (env.encode = .noPacket → (∀ bs, TraceEvent.deliver bs ∉ tr') ∧
      (TraceEvent.encodeCall ∈ tr' → st' = .unexpected)) := by
  obtain ⟨δ, hδ, hto⟩ := processGo_trace env env.reads hwf s false [] st' s' tr' h
  have hδ' : tr' = δ := by simpa using hδ
  subst hδ'
  obtain ⟨h1, h2, h3, h4⟩ := hto
  refine ⟨h1, h2, ?_, h4⟩
  intro hok
  obtain ⟨bs, henc, hmem⟩ := h3 hok
  have := h2 bs hmem
  exact ⟨bs, henc, hmem, by rw [← this.2.1, hok]⟩

/-- Counterexample to C3 as stated: a run whose write callback reports
error code 5 invokes the delivery callback exactly once and yet does not
succeed, refuting "invoked exactly once if and only if the run
succeeds". -/
theorem process_callback_error_still_delivers :
    ((thumb_grabber_process
        ⟨2, [.chunk [9] true], fun _ => DecodeResult.frame, .packet [4],
          .errCode 5, true, []⟩
        ⟨[⟨1, 10, 0, true⟩], [], 0, true, false, 0, 0, 1, none, 0, 0, 0⟩).map
      (fun r => (r.1, deliverCount r.2.2))) = some (.errCode 5, 1) := by
  decide

/-- Witness for process_delivery: a one-frame run with a cooperative
decoder, an encoder producing packet bytes [4] and an OK callback delivers
exactly once, as the final event. -/
theorem process_delivery_witness :
    ([ReadEvent.chunk [9] true].all readOkFree = true) ∧
    (deliverCount [TraceEvent.startFrame ⟨1, 10, 0, true⟩,
        TraceEvent.decodeCall [9, 0, 0] true ⟨1, 10, 0, true⟩,
        TraceEvent.encodeCall, TraceEvent.deliver [4]] ≤ 1 ∧
      (∀ bs, TraceEvent.deliver bs ∈ [TraceEvent.startFrame ⟨1, 10, 0, true⟩,
          TraceEvent.decodeCall [9, 0, 0] true ⟨1, 10, 0, true⟩,
          TraceEvent.encodeCall, TraceEvent.deliver [4]] →
        (⟨2, [.chunk [9] true], fun _ => DecodeResult.frame, .packet [4],
          .ok, true, []⟩ : Env).encode = .packet bs ∧
        VodStatus.ok = (⟨2, [.chunk [9] true], fun _ => DecodeResult.frame,
          .packet [4], .ok, true, []⟩ : Env).writeStatus ∧
        ([TraceEvent.startFrame ⟨1, 10, 0, true⟩,
          TraceEvent.decodeCall [9, 0, 0] true ⟨1, 10, 0, true⟩,
          TraceEvent.encodeCall, TraceEvent.deliver [4]]).getLast? =
          some (TraceEvent.deliver bs)) ∧
      (VodStatus.ok = .ok → ∃ bs,
        (⟨2, [.chunk [9] true], fun _ => DecodeResult.frame, .packet [4],
          .ok, true, []⟩ : Env).encode = .packet bs ∧
        TraceEvent.deliver bs ∈ [TraceEvent.startFrame ⟨1, 10, 0, true⟩,
          TraceEvent.decodeCall [9, 0, 0] true ⟨1, 10, 0, true⟩,
          TraceEvent.encodeCall, TraceEvent.deliver [4]] ∧
        (⟨2, [.chunk [9] true], fun _ => DecodeResult.frame, .packet [4],
          .ok, true, []⟩ : Env).writeStatus = .ok) ∧
      ((⟨2, [.chunk [9] true], fun _ => DecodeResult.frame, .packet [4],
          .ok, true, []⟩ : Env).encode = .noPacket →
        (∀ bs, TraceEvent.deliver bs ∉ [TraceEvent.startFrame ⟨1, 10, 0, true⟩,
          TraceEvent.decodeCall [9, 0, 0] true ⟨1, 10, 0, true⟩,
          TraceEvent.encodeCall, TraceEvent.deliver [4]]) ∧
        (TraceEvent.encodeCall ∈ [TraceEvent.startFrame ⟨1, 10, 0, true⟩,
          TraceEvent.decodeCall [9, 0, 0] true ⟨1, 10, 0, true⟩,
          TraceEvent.encodeCall, TraceEvent.deliver [4]] →
          VodStatus.ok = .unexpected))) :=
  ⟨by decide,
    process_delivery
      ⟨2, [.chunk [9] true], fun _ => DecodeResult.frame, .packet [4], .ok, true, []⟩
      ⟨[⟨1, 10, 0, true⟩], [], 0, true, false, 0, 0, 1, none, 0, 0, 0⟩
      VodStatus.ok
      ⟨[⟨1, 10, 0, true⟩], [], 0, true, true, 10, 0, 1, none, 0, 1, 1⟩
      [TraceEvent.startFrame ⟨1, 10, 0, true⟩,
        TraceEvent.decodeCall [9, 0, 0] true ⟨1, 10, 0, true⟩,
        TraceEvent.encodeCall, TraceEvent.deliver [4]]
      (by decide) (by decide)⟩

/-! ### C5: the VOD_AGAIN suspension and the truncated-input failure -/

/-- C5, amended.  When the byte source reports no-data-yet for the frame in
progress: if no chunk has been processed during the current invocation and
this is not the request's first invocation, the engine fails with the
corrupt-data ("probably a truncated file") status, leaving the state
untouched; otherwise it suspends with VOD_AGAIN, preserving all state
except that the first-invocation flag is cleared — in particular, an
invocation that processed chunks before the suspension keeps all
accumulated buffer state.  (The failure therefore depends on the current
invocation's progress, not on whether any byte was ever processed for the
request.) -/
theorem process_again_semantics :
    (∀ (env : Env) (s : GrabberState) (f : InputFrame) (fs : List InputFrame) rest,
      s.frameStarted = true → s.curPart = f :: fs → s.firstTime = false →
      env.reads = .again :: rest →
      thumb_grabber_process env s = some (.badData, s, [])) ∧
    (∀ (env : Env) (s : GrabberState) (f : InputFrame) (fs : List InputFrame) rest,
      s.frameStarted = true → s.curPart = f :: fs → s.firstTime = true →
      env.reads = .again :: rest →
      thumb_grabber_process env s = some (.again, { s with firstTime := false }, [])) ∧
    (∀ (env : Env) (s : GrabberState) (f : InputFrame) (fs : List InputFrame)
        (b : List Nat) rest,
      s.frameStarted = true → s.curPart = f :: fs → s.frameBuffer = none →
      env.allocOk = true → env.reads = [.chunk b false, .again] ++ rest →
      ∃ r, thumb_grabber_process env s = some r ∧ r.1 = .again ∧
        r.2.1.curFramePos = s.curFramePos + b.length ∧
        r.2.1.firstTime = false ∧
        r.2.1.skipCount = s.skipCount ∧
        r.2.1.dts = s.dts ∧
        r.2.1.missingFrames = s.missingFrames ∧
        r.2.1.decodeIdx = s.decodeIdx ∧
        r.2.1.curPart = s.curPart ∧
        r.2.1.frameBuffer = some (memcpyAt
          (List.replicate (s.maxFrameSize + env.pad) 0) s.curFramePos b)) := by
  refine ⟨?_, ?_, ?_⟩
  · intro env s f fs rest hst hcur hft hreads
    rw [thumb_grabber_process, hreads]
    simp [processGo, startPhase, hst, hcur, hft]
  · intro env s f fs rest hst hcur hft hreads
    rw [thumb_grabber_process, hreads]
    simp [processGo, startPhase, hst, hcur, hft]
  · intro env s f fs b rest hst hcur hfb halloc hreads
    rw [thumb_grabber_process, hreads]
    simp [processGo, startPhase, hst, hcur, hfb, halloc]

/-- Counterexample to C5 as stated: a first invocation that buffers one
chunk of a frame and then suspends, followed by a second invocation that
suspends without data.  Bytes have been processed for the request (the fill
position is 1), yet the second invocation fails with the corrupt-data
status — refuting "becomes a bad-input failure only if it occurs before any
byte has ever been processed for the request". -/
theorem process_again_fails_despite_progress :
    thumb_grabber_process
        ⟨2, [.chunk [1] false, .again], fun _ => DecodeResult.frame, .packet [7],
          .ok, true, []⟩
        ⟨[⟨3, 10, 0, true⟩, ⟨2, 10, 0, false⟩], [], 1, true, false, 0, 0, 3,
          none, 0, 0, 0⟩ =
      some (.again,
        ⟨[⟨3, 10, 0, true⟩, ⟨2, 10, 0, false⟩], [], 1, false, true, 0, 0, 3,
          some [1, 0, 0, 0, 0], 1, 0, 1⟩,
        [TraceEvent.startFrame ⟨3, 10, 0, true⟩, TraceEvent.allocBuffer 5]) ∧
    (⟨[⟨3, 10, 0, true⟩, ⟨2, 10, 0, false⟩], [], 1, false, true, 0, 0, 3,
        some [1, 0, 0, 0, 0], 1, 0, 1⟩ : GrabberState).curFramePos = 1 ∧
    thumb_grabber_process
        ⟨2, [.again], fun _ => DecodeResult.frame, .packet [7], .ok, true, []⟩
        ⟨[⟨3, 10, 0, true⟩, ⟨2, 10, 0, false⟩], [], 1, false, true, 0, 0, 3,
          some [1, 0, 0, 0, 0], 1, 0, 1⟩ =
      some (.badData,
        ⟨[⟨3, 10, 0, true⟩, ⟨2, 10, 0, false⟩], [], 1, false, true, 0, 0, 3,
          some [1, 0, 0, 0, 0], 1, 0, 1⟩, []) := by
  decide

/-- Witness for process_again_semantics: concrete instances of all three
branches. -/
theorem process_again_semantics_witness :
    (thumb_grabber_process
        ⟨2, [.again], fun _ => DecodeResult.frame, .packet [7], .ok, true, []⟩
        ⟨[⟨3, 10, 0, true⟩], [], 0, false, true, 0, 0, 3, none, 0, 0, 0⟩ =
      some (.badData,
        ⟨[⟨3, 10, 0, true⟩], [], 0, false, true, 0, 0, 3, none, 0, 0, 0⟩, [])) ∧
    (thumb_grabber_process
        ⟨2, [.again], fun _ => DecodeResult.frame, .packet [7], .ok, true, []⟩
        ⟨[⟨3, 10, 0, true⟩], [], 0, true, true, 0, 0, 3, none, 0, 0, 0⟩ =
      some (.again,
        ⟨[⟨3, 10, 0, true⟩], [], 0, false, true, 0, 0, 3, none, 0, 0, 0⟩, [])) ∧
    (∃ r, thumb_grabber_process
        ⟨2, [.chunk [1] false, .again], fun _ => DecodeResult.frame, .packet [7],
          .ok, true, []⟩
        ⟨[⟨3, 10, 0, true⟩], [], 0, true, true, 0, 0, 3, none, 0, 0, 0⟩ = some r ∧
      r.1 = .again ∧ r.2.1.curFramePos = 0 + 1 ∧ r.2.1.firstTime = false ∧
      r.2.1.skipCount = 0 ∧ r.2.1.dts = 0 ∧ r.2.1.missingFrames = 0 ∧
      r.2.1.decodeIdx = 0 ∧
      r.2.1.curPart = (⟨[⟨3, 10, 0, true⟩], [], 0, true, true, 0, 0, 3, none, 0, 0,
        0⟩ : GrabberState).curPart ∧
      r.2.1.frameBuffer = some (memcpyAt (List.replicate (3 + 2) 0) 0 [1])) := by
  refine ⟨?_, ?_, ?_⟩
  · exact process_again_semantics.1
      ⟨2, [.again], fun _ => DecodeResult.frame, .packet [7], .ok, true, []⟩
      ⟨[⟨3, 10, 0, true⟩], [], 0, false, true, 0, 0, 3, none, 0, 0, 0⟩
      ⟨3, 10, 0, true⟩ [] [] rfl rfl rfl rfl
  · exact process_again_semantics.2.1
      ⟨2, [.again], fun _ => DecodeResult.frame, .packet [7], .ok, true, []⟩
      ⟨[⟨3, 10, 0, true⟩], [], 0, true, true, 0, 0, 3, none, 0, 0, 0⟩
      ⟨3, 10, 0, true⟩ [] [] rfl rfl rfl rfl
  · exact process_again_semantics.2.2
      ⟨2, [.chunk [1] false, .again], fun _ => DecodeResult.frame, .packet [7],
        .ok, true, []⟩
      ⟨[⟨3, 10, 0, true⟩], [], 0, true, true, 0, 0, 3, none, 0, 0, 0⟩
      ⟨3, 10, 0, true⟩ [] [1] [] rfl rfl rfl rfl rfl

/-! ### C10: the scratch frame buffer is lazy and bypassed for whole frames -/

theorem DirectTrace.of_forall (δ : List TraceEvent)
    (h : ∀ e ∈ δ, (∀ n, e ≠ TraceEvent.allocBuffer n) ∧
      (∀ sent d f, e = TraceEvent.decodeCall sent d f → d = true)) :
    DirectTrace δ := by
  constructor
  · intro n hn
    exact (h _ hn).1 n rfl
  · intro sent d f hm
    exact (h _ hm).2 sent d f rfl

theorem DirectTrace.append (δ₁ δ₂ : List TraceEvent)
    (h₁ : DirectTrace δ₁) (h₂ : DirectTrace δ₂) : DirectTrace (δ₁ ++ δ₂) := by
  constructor
  · intro n hn
    rcases List.mem_append.mp hn with hm | hm
    · exact h₁.1 n hm
    · exact h₂.1 n hm
  · intro sent d f hm
    rcases List.mem_append.mp hm with hm | hm
    · exact h₁.2 sent d f hm
    · exact h₂.2 sent d f hm

theorem DirectTrace.of_startFrames (δ : List TraceEvent)
    (h : ∀ e ∈ δ, ∃ g, e = TraceEvent.startFrame g) : DirectTrace δ := by
  refine DirectTrace.of_forall δ ?_
  intro e he
  obtain ⟨g, rfl⟩ := h e he
  exact ⟨(fun n hn => nomatch hn), (fun sent d f hn => nomatch hn)⟩

theorem DirectTrace.replicate_flush (n : Nat) :
    DirectTrace (List.replicate n TraceEvent.flushCall) := by
  refine DirectTrace.of_forall _ ?_
  intro e he
  rw [List.eq_of_mem_replicate he]
  exact ⟨(fun n hn => nomatch hn), (fun sent d f hn => nomatch hn)⟩

theorem DirectTrace.single_decode (sent : List Nat) (f : InputFrame) :
    DirectTrace [TraceEvent.decodeCall sent true f] := by
  refine DirectTrace.of_forall _ ?_
  intro e he
  rw [List.mem_singleton.mp he]
  refine ⟨(fun n hn => nomatch hn), fun sent' d' f' hn => ?_⟩
  cases hn
  rfl

theorem DirectTrace.single_other (e : TraceEvent)
    (h1 : ∀ n, e ≠ TraceEvent.allocBuffer n)
    (h2 : ∀ sent d f, e = TraceEvent.decodeCall sent d f → d = true) :
    DirectTrace [e] := by
  refine DirectTrace.of_forall _ ?_
  intro e' he
  rw [List.mem_singleton.mp he]
  exact ⟨h1, h2⟩

theorem startFrameStep_preserves (env : Env) (s0 : GrabberState) (tr : List TraceEvent) :
    (∀ st s1 tr1, startFrameStep env s0 tr = some (.inl (st, s1, tr1)) →
      s1.frameBuffer = s0.frameBuffer ∧ s1.curFramePos = s0.curFramePos) ∧
    (∀ s1 tr1 f, startFrameStep env s0 tr = some (.inr (s1, tr1, f)) →
      s1.frameBuffer = s0.frameBuffer ∧ s1.curFramePos = s0.curFramePos) := by
  cases hcp : s0.curPart with
  | nil =>
      constructor
      · intro st s1 tr1 h
        simp [startFrameStep, hcp] at h
      · intro s1 tr1 f h
        simp [startFrameStep, hcp] at h
  | cons f fs =>
      have hred : startFrameStep env s0 tr =
          (if env.starts.getD s0.startIdx .ok ≠ .ok then
            some (.inl (env.starts.getD s0.startIdx .ok,
              { s0 with startIdx := s0.startIdx + 1 }, tr ++ [TraceEvent.startFrame f]))
          else some (.inr ({ s0 with startIdx := s0.startIdx + 1, frameStarted := true },
            tr ++ [TraceEvent.startFrame f], f))) := by
        rw [startFrameStep, hcp]
      constructor
      · intro st s1 tr1 h
        rw [hred] at h
        split at h
        · have h2 := Sum.inl.inj (Option.some.inj h)
          have h3 : ({ s0 with startIdx := s0.startIdx + 1 } : GrabberState) = s1 :=
            congrArg (fun z => z.2.1) h2
          rw [← h3]
          exact ⟨rfl, rfl⟩
        · cases Option.some.inj h
      · intro s1 tr1 f' h
        rw [hred] at h
        split at h
        · cases Option.some.inj h
        · have h2 := Sum.inr.inj (Option.some.inj h)
          have h3 : ({ s0 with startIdx := s0.startIdx + 1, frameStarted := true } :
              GrabberState) = s1 := congrArg Prod.fst h2
          rw [← h3]
          exact ⟨rfl, rfl⟩

theorem startPhase_preserves (env : Env) (s : GrabberState) (tr : List TraceEvent) :
    (∀ st s1 tr1, startPhase env s tr = some (.inl (st, s1, tr1)) →
      s1.frameBuffer = s.frameBuffer ∧ s1.curFramePos = s.curFramePos) ∧
    (∀ s1 tr1 f, startPhase env s tr = some (.inr (s1, tr1, f)) →
      s1.frameBuffer = s.frameBuffer ∧ s1.curFramePos = s.curFramePos) := by
  by_cases hst : s.frameStarted = true
  · cases hcp : s.curPart with
    | nil =>
        constructor
        · intro st s1 tr1 h
          simp [startPhase, hst, hcp] at h
        · intro s1 tr1 f h
          simp [startPhase, hst, hcp] at h
    | cons f fs =>
        constructor
        · intro st s1 tr1 h
          simp [startPhase, hst, hcp] at h
        · intro s1 tr1 f' h
          have hred : startPhase env s tr = some (.inr (s, tr, f)) := by
            simp [startPhase, hst, hcp]
          rw [hred] at h
          have h2 := Sum.inr.inj (Option.some.inj h)
          have h3 : s = s1 := congrArg Prod.fst h2
          rw [← h3]
          exact ⟨rfl, rfl⟩
  · cases hcp : s.curPart with
    | nil =>
        cases hnp : s.nextParts with
        | nil =>
            constructor
            · intro st s1 tr1 h
              simp [startPhase, hst, hcp, hnp] at h
            · intro s1 tr1 f h
              simp [startPhase, hst, hcp, hnp] at h
        | cons p rest =>
            have heq : startPhase env s tr =
                startFrameStep env { s with curPart := p, nextParts := rest } tr := by
              simp [startPhase, hst, hcp, hnp]
            constructor
            · intro st s1 tr1 h
              rw [heq] at h
              exact (startFrameStep_preserves env
                { s with curPart := p, nextParts := rest } tr).1 st s1 tr1 h
            · intro s1 tr1 f h
              rw [heq] at h
              exact (startFrameStep_preserves env
                { s with curPart := p, nextParts := rest } tr).2 s1 tr1 f h
    | cons f fs =>
        have heq : startPhase env s tr = startFrameStep env s tr := by
          simp [startPhase, hst, hcp]
        constructor
        · intro st s1 tr1 h
          rw [heq] at h
          exact (startFrameStep_preserves env s tr).1 st s1 tr1 h
        · intro s1 tr1 f' h
          rw [heq] at h
          exact (startFrameStep_preserves env s tr).2 s1 tr1 f' h

theorem write_frame_direct_core (env : Env) (s : GrabberState) (tr : List TraceEvent)
    (fl : VodStatus × Nat × Nat) :
    (if fl.1 ≠ VodStatus.ok then
        (fl.1, { s with missingFrames := fl.2.1, decodeIdx := fl.2.2 },
          tr ++ List.replicate (fl.2.2 - s.decodeIdx) TraceEvent.flushCall)
      else
        match env.encode with
        | .err => (VodStatus.unexpected,
            { s with missingFrames := fl.2.1, decodeIdx := fl.2.2 },
            (tr ++ List.replicate (fl.2.2 - s.decodeIdx) TraceEvent.flushCall) ++
              [TraceEvent.encodeCall])
        | .noPacket => (VodStatus.unexpected,
            { s with missingFrames := fl.2.1, decodeIdx := fl.2.2 },
            (tr ++ List.replicate (fl.2.2 - s.decodeIdx) TraceEvent.flushCall) ++
              [TraceEvent.encodeCall])
        | .packet bs => (env.writeStatus,
            { s with missingFrames := fl.2.1, decodeIdx := fl.2.2 },
            ((tr ++ List.replicate (fl.2.2 - s.decodeIdx) TraceEvent.flushCall) ++
              [TraceEvent.encodeCall]) ++ [TraceEvent.deliver bs])).2.1.frameBuffer =
      s.frameBuffer ∧
    (if fl.1 ≠ VodStatus.ok then
        (fl.1, { s with missingFrames := fl.2.1, decodeIdx := fl.2.2 },
          tr ++ List.replicate (fl.2.2 - s.decodeIdx) TraceEvent.flushCall)
      else
        match env.encode with
        | .err => (VodStatus.unexpected,
            { s with missingFrames := fl.2.1, decodeIdx := fl.2.2 },
            (tr ++ List.replicate (fl.2.2 - s.decodeIdx) TraceEvent.flushCall) ++
              [TraceEvent.encodeCall])
        | .noPacket => (VodStatus.unexpected,
            { s with missingFrames := fl.2.1, decodeIdx := fl.2.2 },
            (tr ++ List.replicate (fl.2.2 - s.decodeIdx) TraceEvent.flushCall) ++
              [TraceEvent.encodeCall])
        | .packet bs => (env.writeStatus,
            { s with missingFrames := fl.2.1, decodeIdx := fl.2.2 },
            ((tr ++ List.replicate (fl.2.2 - s.decodeIdx) TraceEvent.flushCall) ++
              [TraceEvent.encodeCall]) ++ [TraceEvent.deliver bs])).2.1.curFramePos =
      s.curFramePos ∧
    ∃ δ, (if fl.1 ≠ VodStatus.ok then
        (fl.1, { s with missingFrames := fl.2.1, decodeIdx := fl.2.2 },
          tr ++ List.replicate (fl.2.2 - s.decodeIdx) TraceEvent.flushCall)
      else
        match env.encode with
        | .err => (VodStatus.unexpected,
            { s with missingFrames := fl.2.1, decodeIdx := fl.2.2 },
            (tr ++ List.replicate (fl.2.2 - s.decodeIdx) TraceEvent.flushCall) ++
              [TraceEvent.encodeCall])
        | .noPacket => (VodStatus.unexpected,
            { s with missingFrames := fl.2.1, decodeIdx := fl.2.2 },
            (tr ++ List.replicate (fl.2.2 - s.decodeIdx) TraceEvent.flushCall) ++
              [TraceEvent.encodeCall])
        | .packet bs => (env.writeStatus,
            { s with missingFrames := fl.2.1, decodeIdx := fl.2.2 },
            ((tr ++ List.replicate (fl.2.2 - s.decodeIdx) TraceEvent.flushCall) ++
              [TraceEvent.encodeCall]) ++ [TraceEvent.deliver bs])).2.2 = tr ++ δ ∧
      DirectTrace δ := by
  by_cases hne : fl.1 ≠ VodStatus.ok
  · rw [if_pos hne]
    exact ⟨rfl, rfl, List.replicate (fl.2.2 - s.decodeIdx) TraceEvent.flushCall, rfl,
      DirectTrace.replicate_flush _⟩
  · rw [if_neg hne]
    cases henc : env.encode with
    | err =>
        refine ⟨rfl, rfl, List.replicate (fl.2.2 - s.decodeIdx) TraceEvent.flushCall ++
          [TraceEvent.encodeCall], by simp, ?_⟩
        exact DirectTrace.append _ _ (DirectTrace.replicate_flush _)
          (DirectTrace.single_other _ (fun n hn => by cases hn)
            (fun sent d f hn => by cases hn))
    | noPacket =>
        refine ⟨rfl, rfl, List.replicate (fl.2.2 - s.decodeIdx) TraceEvent.flushCall ++
          [TraceEvent.encodeCall], by simp, ?_⟩
        exact DirectTrace.append _ _ (DirectTrace.replicate_flush _)
          (DirectTrace.single_other _ (fun n hn => by cases hn)
            (fun sent d f hn => by cases hn))
    | packet bs =>
        refine ⟨rfl, rfl, (List.replicate (fl.2.2 - s.decodeIdx) TraceEvent.flushCall ++
          [TraceEvent.encodeCall]) ++ [TraceEvent.deliver bs], by simp, ?_⟩
        refine DirectTrace.append _ _ (DirectTrace.append _ _
          (DirectTrace.replicate_flush _)
          (DirectTrace.single_other _ (fun n hn => by cases hn)
            (fun sent d f hn => by cases hn))) ?_
        exact DirectTrace.single_other _ (fun n hn => by cases hn)
          (fun sent d f hn => by cases hn)

theorem write_frame_direct (env : Env) (s : GrabberState) (tr : List TraceEvent) :
    (thumb_grabber_write_frame env s tr).2.1.frameBuffer = s.frameBuffer ∧
    (thumb_grabber_write_frame env s tr).2.1.curFramePos = s.curFramePos ∧
    ∃ δ, (thumb_grabber_write_frame env s tr).2.2 = tr ++ δ ∧ DirectTrace δ :=
  write_frame_direct_core env s tr
    (if s.missingFrames > 0 then
      thumb_grabber_decode_flush env.decodeAt s.missingFrames s.decodeIdx
    else (.ok, s.missingFrames, s.decodeIdx))

theorem decode_branch_direct (env : Env) (rest : List ReadEvent)
    (ihP : ∀ (s : GrabberState) (pd : Bool) (tr : List TraceEvent)
        (r : VodStatus × GrabberState × List TraceEvent),
      s.frameBuffer = none → s.curFramePos = 0 →
      processGo env rest s pd tr = some r →
      r.2.1.frameBuffer = none ∧ ∃ δ, r.2.2 = tr ++ δ ∧ DirectTrace δ)
    (dout : DecodeFrameOut) (s3 : GrabberState) (f : InputFrame)
    (tr δ0 : List TraceEvent) (hδ0 : DirectTrace δ0)
    (r : VodStatus × GrabberState × List TraceEvent)
    (h : (if dout.status ≠ .ok then
            some (dout.status, s3, (tr ++ δ0) ++ [TraceEvent.decodeCall dout.sent true f])
          else if s3.skipCount = 0 then
            some (thumb_grabber_write_frame env s3
              ((tr ++ δ0) ++ [TraceEvent.decodeCall dout.sent true f]))
          else processGo env rest
            { s3 with
                skipCount := s3.skipCount - 1
                curPart := s3.curPart.tail
                frameStarted := false } true
            ((tr ++ δ0) ++ [TraceEvent.decodeCall dout.sent true f])) = some r)
    (hfb3 : s3.frameBuffer = none) (hpos3 : s3.curFramePos = 0) :
    r.2.1.frameBuffer = none ∧ ∃ δ, r.2.2 = tr ++ δ ∧ DirectTrace δ := by
  have hdc : DirectTrace (δ0 ++ [TraceEvent.decodeCall dout.sent true f]) :=
    DirectTrace.append _ _ hδ0 (DirectTrace.single_decode _ _)
  by_cases hst : dout.status ≠ .ok
  · rw [if_pos hst] at h
    obtain rfl := Option.some.inj h
    exact ⟨hfb3, δ0 ++ [TraceEvent.decodeCall dout.sent true f], by simp, hdc⟩
  · rw [if_neg hst] at h
    by_cases hskip : s3.skipCount = 0
    · rw [if_pos hskip] at h
      obtain rfl := Option.some.inj h
      obtain ⟨hb, _, δw, hw, hdw⟩ := write_frame_direct env s3
        ((tr ++ δ0) ++ [TraceEvent.decodeCall dout.sent true f])
      refine ⟨hb.trans hfb3,
        (δ0 ++ [TraceEvent.decodeCall dout.sent true f]) ++ δw, ?_, ?_⟩
      · rw [hw]
        simp [List.append_assoc]
      · exact DirectTrace.append _ _ hdc hdw
    · rw [if_neg hskip] at h
      obtain ⟨hb, δ1, hδ1, hd1⟩ := ihP
        { s3 with
            skipCount := s3.skipCount - 1
            curPart := s3.curPart.tail
            frameStarted := false } true _ r hfb3 hpos3 h
      refine ⟨hb, (δ0 ++ [TraceEvent.decodeCall dout.sent true f]) ++ δ1, ?_, ?_⟩
      · rw [hδ1]
        simp [List.append_assoc]
      · exact DirectTrace.append _ _ hdc hd1

theorem processGo_direct (env : Env) :
    ∀ (rds : List ReadEvent), rds.all doneOnly = true →
      ∀ (s : GrabberState) (pd : Bool) (tr : List TraceEvent)
        (r : VodStatus × GrabberState × List TraceEvent),
        s.frameBuffer = none → s.curFramePos = 0 →
        processGo env rds s pd tr = some r →
        r.2.1.frameBuffer = none ∧ ∃ δ, r.2.2 = tr ++ δ ∧ DirectTrace δ := by
  intro rds
  induction rds with
  | nil =>
      intro _ s pd tr r hfb hpos h
      rcases startPhase_cases env s tr with hsp | ⟨st0, s1, δ0, hsp, hst0, hδ0⟩ |
        ⟨s1, δ0, f, hsp, hδ0⟩
      · simp only [processGo, hsp] at h
        cases h
      · simp only [processGo, hsp] at h
        have hpres := (startPhase_preserves env s tr).1 st0 s1 (tr ++ δ0) hsp
        obtain rfl := Option.some.inj h
        exact ⟨hpres.1.trans hfb, δ0, rfl, DirectTrace.of_startFrames δ0 hδ0⟩
      · simp only [processGo, hsp] at h
        have hpres := (startPhase_preserves env s tr).2 s1 (tr ++ δ0) f hsp
        split at h
        · obtain rfl := Option.some.inj h
          exact ⟨hpres.1.trans hfb, δ0, rfl, DirectTrace.of_startFrames δ0 hδ0⟩
        · obtain rfl := Option.some.inj h
          exact ⟨hpres.1.trans hfb, δ0, rfl, DirectTrace.of_startFrames δ0 hδ0⟩
  | cons ev rest ih =>
      intro hwf s pd tr r hfb hpos h
      have hwf2 : doneOnly ev = true ∧ rest.all doneOnly = true := by
        rw [List.all_cons] at hwf
        exact ⟨((Bool.and_eq_true _ _).mp hwf).1, ((Bool.and_eq_true _ _).mp hwf).2⟩
      cases ev with
      | again =>
          rcases startPhase_cases env s tr with hsp | ⟨st0, s1, δ0, hsp, hst0, hδ0⟩ |
            ⟨s1, δ0, f, hsp, hδ0⟩
          · simp only [processGo, hsp] at h
            cases h
          · simp only [processGo, hsp] at h
            have hpres := (startPhase_preserves env s tr).1 st0 s1 (tr ++ δ0) hsp
            obtain rfl := Option.some.inj h
            exact ⟨hpres.1.trans hfb, δ0, rfl, DirectTrace.of_startFrames δ0 hδ0⟩
          · simp only [processGo, hsp] at h
            have hpres := (startPhase_preserves env s tr).2 s1 (tr ++ δ0) f hsp
            split at h
            · obtain rfl := Option.some.inj h
              exact ⟨hpres.1.trans hfb, δ0, rfl, DirectTrace.of_startFrames δ0 hδ0⟩
            · obtain rfl := Option.some.inj h
              exact ⟨hpres.1.trans hfb, δ0, rfl, DirectTrace.of_startFrames δ0 hδ0⟩
      | errStat st0 =>
          rcases startPhase_cases env s tr with hsp | ⟨st1, s1, δ0, hsp, hst1, hδ0⟩ |
            ⟨s1, δ0, f, hsp, hδ0⟩
          · simp only [processGo, hsp] at h
            cases h
          · simp only [processGo, hsp] at h
            have hpres := (startPhase_preserves env s tr).1 st1 s1 (tr ++ δ0) hsp
            obtain rfl := Option.some.inj h
            exact ⟨hpres.1.trans hfb, δ0, rfl, DirectTrace.of_startFrames δ0 hδ0⟩
          · simp only [processGo, hsp] at h
            have hpres := (startPhase_preserves env s tr).2 s1 (tr ++ δ0) f hsp
            obtain rfl := Option.some.inj h
            exact ⟨hpres.1.trans hfb, δ0, rfl, DirectTrace.of_startFrames δ0 hδ0⟩
      | chunk bytes frameDone =>
          cases frameDone with
          | false => cases hwf2.1
          | true =>
              rcases startPhase_cases env s tr with hsp | ⟨st1, s1, δ0, hsp, hst1, hδ0⟩ |
                ⟨s1, δ0, f, hsp, hδ0⟩
              · simp only [processGo, hsp] at h
                cases h
              · simp only [processGo, hsp] at h
                have hpres := (startPhase_preserves env s tr).1 st1 s1 (tr ++ δ0) hsp
                obtain rfl := Option.some.inj h
                exact ⟨hpres.1.trans hfb, δ0, rfl, DirectTrace.of_startFrames δ0 hδ0⟩
              · have hpres := (startPhase_preserves env s tr).2 s1 (tr ++ δ0) f hsp
                have hfb1 : s1.frameBuffer = none := hpres.1.trans hfb
                have hpos1 : s1.curFramePos = 0 := hpres.2.trans hpos
                simp only [processGo, hsp, Bool.not_true, Bool.false_eq_true,
                  if_false] at h
                have hpos1' : ¬(s1.curFramePos ≠ 0) := by
                  rw [hpos1]
                  exact fun hh => hh rfl
                rw [if_neg hpos1'] at h
                exact decode_branch_direct env rest (fun s2 pd2 tr2 r2 =>
                    ih hwf2.2 s2 pd2 tr2 r2) _ _ f tr δ0
                  (DirectTrace.of_startFrames δ0 hδ0) r h hfb1 hpos1

/-- C10, confirmed.  (a) In any completed invocation whose read results
never leave a frame partially read (every chunk completes its frame),
started with no scratch frame buffer and a zero fill position, the scratch
buffer is never allocated, every full-frame decode call reads the bytes
directly from the frames source's returned buffer, and the final state
still has no scratch buffer.  (b) The scratch buffer is allocated lazily:
the first read that returns a partial frame while no buffer exists
allocates a buffer of exactly max_frame_size plus the padding size and
copies the partial bytes into it at the current fill position. -/
theorem direct_no_scratch :
    (∀ (env : Env) (s : GrabberState) (st' : VodStatus) (s' : GrabberState)
        (tr' : List TraceEvent),
      env.reads.all doneOnly = true →
      s.frameBuffer = none → s.curFramePos = 0 →
      thumb_grabber_process env s = some (st', s', tr') →
      s'.frameBuffer = none ∧ (∀ n, TraceEvent.allocBuffer n ∉ tr') ∧
      (∀ sent d f, TraceEvent.decodeCall sent d f ∈ tr' → d = true)) ∧
    (∀ (env : Env) (s : GrabberState) (b : List Nat) (rest : List ReadEvent)
        (f : InputFrame) (fs : List InputFrame),
      s.frameStarted = true → s.curPart = f :: fs → s.frameBuffer = none →
      env.allocOk = true → env.reads = .chunk b false :: rest →
      thumb_grabber_process env s = processGo env rest
        { s with
            frameBuffer := some (memcpyAt
              (List.replicate (s.maxFrameSize + env.pad) 0) s.curFramePos b),
            curFramePos := s.curFramePos + b.length }
        true [TraceEvent.allocBuffer (s.maxFrameSize + env.pad)]) := by
  constructor
  · intro env s st' s' tr' hwf hfb hpos h
    obtain ⟨hb, δ, hδ, hd⟩ := processGo_direct env env.reads hwf s false []
      (st', s', tr') hfb hpos h
    have hδ' : tr' = δ := by simpa using hδ
    subst hδ'
    exact ⟨hb, hd.1, hd.2⟩
  · intro env s b rest f fs hst hcur hfb halloc hreads
    rw [thumb_grabber_process, hreads]
    simp [processGo, startPhase, hst, hcur, hfb, halloc]

/-- Witness for direct_no_scratch: (a) a whole-frame run delivers with no
allocation and a direct decode; (b) a partial first chunk allocates the
5-byte scratch buffer (max_frame_size 3 plus padding 2) at once. -/
theorem direct_no_scratch_witness :
    ((⟨[⟨4, 10, 0, true⟩], [], 0, true, true, 10, 0, 4, none, 0, 1, 1⟩ :
        GrabberState).frameBuffer = none ∧
      (∀ n, TraceEvent.allocBuffer n ∉
        [TraceEvent.startFrame ⟨4, 10, 0, true⟩,
         TraceEvent.decodeCall [5, 6, 7, 8, 0, 0] true ⟨4, 10, 0, true⟩,
         TraceEvent.encodeCall, TraceEvent.deliver [6]]) ∧
      (∀ sent d f, TraceEvent.decodeCall sent d f ∈
        [TraceEvent.startFrame ⟨4, 10, 0, true⟩,
         TraceEvent.decodeCall [5, 6, 7, 8, 0, 0] true ⟨4, 10, 0, true⟩,
         TraceEvent.encodeCall, TraceEvent.deliver [6]] → d = true)) ∧
    (thumb_grabber_process
        ⟨2, [.chunk [1] false], fun _ => DecodeResult.frame, .packet [7], .ok,
          true, []⟩
        ⟨[⟨3, 10, 0, true⟩], [], 0, true, true, 0, 0, 3, none, 0, 0, 0⟩ =
      processGo
        ⟨2, [.chunk [1] false], fun _ => DecodeResult.frame, .packet [7], .ok,
          true, []⟩ []
        ⟨[⟨3, 10, 0, true⟩], [], 0, true, true, 0, 0, 3, some [1, 0, 0, 0, 0],
          1, 0, 0⟩
        true [TraceEvent.allocBuffer 5]) := by
  constructor
  · exact direct_no_scratch.1
      ⟨2, [.chunk [5, 6, 7, 8] true], fun _ => DecodeResult.frame, .packet [6],
        .ok, true, []⟩
      ⟨[⟨4, 10, 0, true⟩], [], 0, true, false, 0, 0, 4, none, 0, 0, 0⟩
      VodStatus.ok
      ⟨[⟨4, 10, 0, true⟩], [], 0, true, true, 10, 0, 4, none, 0, 1, 1⟩
      [TraceEvent.startFrame ⟨4, 10, 0, true⟩,
       TraceEvent.decodeCall [5, 6, 7, 8, 0, 0] true ⟨4, 10, 0, true⟩,
       TraceEvent.encodeCall, TraceEvent.deliver [6]]
      (by decide) (by decide) (by decide) (by decide)
  · exact direct_no_scratch.2
      ⟨2, [.chunk [1] false], fun _ => DecodeResult.frame, .packet [7], .ok,
        true, []⟩
      ⟨[⟨3, 10, 0, true⟩], [], 0, true, true, 0, 0, 3, none, 0, 0, 0⟩
      [1] [] ⟨3, 10, 0, true⟩ [] rfl rfl rfl rfl rfl

/-! ### C7: arbitrary fragmentation is reassembled exactly -/

theorem memcpyAt_take_prefix (buf : List Nat) (acc src : List Nat)
    (hpre : buf.take acc.length = acc) :
    (memcpyAt buf acc.length src).take (acc.length + src.length) = acc ++ src := by
  rw [memcpyAt, hpre]
  exact List.take_left' (by simp)

theorem processGo_reassembles (env : Env) (f : InputFrame) (fs : List InputFrame)
    (last eb : List Nat)
    (henc : env.encode = .packet eb) (halloc : env.allocOk = true) :
    ∀ (chunks : List (List Nat)) (s : GrabberState) (pd : Bool)
      (tr : List TraceEvent) (acc : List Nat),
      s.frameStarted = true → s.curPart = f :: fs →
      s.curFramePos = acc.length →
      (s.frameBuffer = none ∧ acc = [] ∨
        ∃ buf, s.frameBuffer = some buf ∧ buf.take acc.length = acc ∧
          buf.length = s.maxFrameSize + env.pad) →
      f.size = (acc ++ chunks.flatten ++ last).length →
      (acc ++ chunks.flatten ++ last).length ≤ s.maxFrameSize →
      s.skipCount = 0 → s.missingFrames = 0 →
      env.decodeAt s.decodeIdx = .frame →
      ∃ s' tr' sent d,
        processGo env (chunks.map (fun c => ReadEvent.chunk c false) ++
          [ReadEvent.chunk last true]) s pd tr = some (env.writeStatus, s', tr') ∧
        TraceEvent.decodeCall sent d f ∈ tr' ∧
        sent.take f.size = acc ++ chunks.flatten ++ last ∧
        s'.curFramePos = 0 := by
  intro chunks
  induction chunks with
  | nil =>
      intro s pd tr acc hst hcur hposEq hbuf hsize hmax hskip hmissing hdec
      have hsp : startPhase env s tr = some (.inr (s, tr, f)) := by
        simp [startPhase, hst, hcur]
      by_cases hacc : acc = []
      · subst hacc
        have hpos0 : s.curFramePos = 0 := by simpa using hposEq
        have hsize' : f.size = last.length := by simpa using hsize
        have hrun : processGo env ([] ++ [ReadEvent.chunk last true]) s pd tr =
            some (thumb_grabber_write_frame env
              { s with decodeIdx := s.decodeIdx + 1, dts := s.dts + f.duration }
              (tr ++ [TraceEvent.decodeCall
                (memcpyAt last f.size (List.replicate env.pad 0)) true f])) := by
          simp [processGo, hsp, hpos0, hdec, thumb_grabber_decode_frame, hskip]
        have hwf := write_frame_flush_then_encode env
          { s with decodeIdx := s.decodeIdx + 1, dts := s.dts + f.duration }
          (tr ++ [TraceEvent.decodeCall
            (memcpyAt last f.size (List.replicate env.pad 0)) true f])
          0 eb hmissing (fun k hk => absurd hk (Nat.not_lt_zero k)) henc
        have hfull : processGo env ([] ++ [ReadEvent.chunk last true]) s pd tr =
            some (env.writeStatus,
              { s with
                  decodeIdx := s.decodeIdx + 1 + 0
                  dts := s.dts + f.duration
                  missingFrames := 0 },
              (tr ++ [TraceEvent.decodeCall
                (memcpyAt last f.size (List.replicate env.pad 0)) true f]) ++
                List.replicate 0 TraceEvent.flushCall ++
                [TraceEvent.encodeCall, TraceEvent.deliver eb]) := by
          rw [hrun, hwf]
        refine ⟨_, _, memcpyAt last f.size (List.replicate env.pad 0), true,
          hfull, ?_, ?_, ?_⟩
        · simp
        · rw [memcpyAt_take _ _ _ (by rw [hsize'])]
          rw [hsize', List.take_length]
          simp
        · exact hpos0
      · obtain ⟨buf, hfb, hpre, hlen⟩ := hbuf.resolve_left
          (fun hh => hacc hh.2)
        have hpos' : s.curFramePos ≠ 0 := by
          rw [hposEq]
          have : 0 < acc.length := List.length_pos.mpr hacc
          omega
        have hmax' : acc.length + last.length ≤ s.maxFrameSize := by
          simp only [List.append_nil, List.flatten_nil, List.length_append] at hmax
          omega
        have hsize' : f.size = acc.length + last.length := by
          simp only [List.append_nil, List.flatten_nil, List.length_append] at hsize
          omega
        have hrun : processGo env ([] ++ [ReadEvent.chunk last true]) s pd tr =
            some (thumb_grabber_write_frame env
              { s with
                  curFramePos := 0,
                  decodeIdx := s.decodeIdx + 1,
                  dts := s.dts + f.duration,
                  frameBuffer := some (memcpyAt
                    (memcpyAt (memcpyAt buf s.curFramePos last) f.size
                      (List.replicate env.pad 0)) f.size
                    (((memcpyAt buf s.curFramePos last).drop f.size).take env.pad)) }
              (tr ++ [TraceEvent.decodeCall
                (memcpyAt (memcpyAt buf s.curFramePos last) f.size
                  (List.replicate env.pad 0)) false f])) := by
          simp [processGo, hsp, hpos', hfb, hdec, thumb_grabber_decode_frame, hskip]
        have hwf := write_frame_flush_then_encode env
          { s with
              curFramePos := 0,
              decodeIdx := s.decodeIdx + 1,
              dts := s.dts + f.duration,
              frameBuffer := some (memcpyAt
                (memcpyAt (memcpyAt buf s.curFramePos last) f.size
                  (List.replicate env.pad 0)) f.size
                (((memcpyAt buf s.curFramePos last).drop f.size).take env.pad)) }
          (tr ++ [TraceEvent.decodeCall
            (memcpyAt (memcpyAt buf s.curFramePos last) f.size
              (List.replicate env.pad 0)) false f])
          0 eb hmissing (fun k hk => absurd hk (Nat.not_lt_zero k)) henc
        have hfull : processGo env ([] ++ [ReadEvent.chunk last true]) s pd tr =
            some (env.writeStatus,
              { s with
                  curFramePos := 0,
                  dts := s.dts + f.duration,
                  frameBuffer := some (memcpyAt
                    (memcpyAt (memcpyAt buf s.curFramePos last) f.size
                      (List.replicate env.pad 0)) f.size
                    (((memcpyAt buf s.curFramePos last).drop f.size).take env.pad)),
                  missingFrames := 0,
                  decodeIdx := s.decodeIdx + 1 + 0 },
              (tr ++ [TraceEvent.decodeCall
                (memcpyAt (memcpyAt buf s.curFramePos last) f.size
                  (List.replicate env.pad 0)) false f]) ++
                List.replicate 0 TraceEvent.flushCall ++
                [TraceEvent.encodeCall, TraceEvent.deliver eb]) := by
          rw [hrun, hwf]
        refine ⟨_, _, memcpyAt (memcpyAt buf s.curFramePos last) f.size
          (List.replicate env.pad 0), false, hfull, ?_, ?_, ?_⟩
        · simp
        · have hinlen : (memcpyAt buf s.curFramePos last).length =
              s.maxFrameSize + env.pad := by
            rw [length_memcpyAt buf s.curFramePos last (by rw [hposEq, hlen]; omega),
              hlen]
          rw [memcpyAt_take _ _ _ (by rw [hinlen, hsize']; omega)]
          rw [hposEq, hsize']
          have := memcpyAt_take_prefix buf acc last hpre
          rw [this]
          simp
        · rfl
  | cons c chunks' ih =>
      intro s pd tr acc hst hcur hposEq hbuf hsize hmax hskip hmissing hdec
      have hsp : startPhase env s tr = some (.inr (s, tr, f)) := by
        simp [startPhase, hst, hcur]
      have hsize' : f.size = ((acc ++ c) ++ chunks'.flatten ++ last).length := by
        simp only [List.flatten_cons, List.length_append] at hsize ⊢
        omega
      have hmax' : ((acc ++ c) ++ chunks'.flatten ++ last).length ≤ s.maxFrameSize := by
        simp only [List.flatten_cons, List.length_append] at hmax ⊢
        omega
      have hmaxc : acc.length + c.length ≤ s.maxFrameSize := by
        simp only [List.flatten_cons, List.length_append] at hmax
        omega
      rcases hbuf with ⟨hfb, haccnil⟩ | ⟨buf, hfb, hpre, hlen⟩
      · subst haccnil
        have hpos0 : s.curFramePos = 0 := by simpa using hposEq
        have hred : processGo env
            ((c :: chunks').map (fun c => ReadEvent.chunk c false) ++
              [ReadEvent.chunk last true]) s pd tr =
            processGo env (chunks'.map (fun c => ReadEvent.chunk c false) ++
              [ReadEvent.chunk last true])
              { s with
                  frameBuffer := some (memcpyAt
                    (List.replicate (s.maxFrameSize + env.pad) 0) s.curFramePos c),
                  curFramePos := s.curFramePos + c.length }
              true (tr ++ [TraceEvent.allocBuffer (s.maxFrameSize + env.pad)]) := by
          simp [processGo, hsp, hfb, halloc]
        have htake2 : (memcpyAt (List.replicate (s.maxFrameSize + env.pad) 0)
            s.curFramePos c).take c.length = c := by
          rw [hpos0]
          have := memcpyAt_take_prefix (List.replicate (s.maxFrameSize + env.pad) 0)
            [] c (by simp)
          simpa using this
        have hlen2 : (memcpyAt (List.replicate (s.maxFrameSize + env.pad) 0)
            s.curFramePos c).length = s.maxFrameSize + env.pad := by
          rw [length_memcpyAt _ _ _ (by rw [hpos0]; simp; omega)]
          simp
        obtain ⟨s', tr', sent, d, heq, hmem, htake, hpos'⟩ := ih
          { s with
              frameBuffer := some (memcpyAt
                (List.replicate (s.maxFrameSize + env.pad) 0) s.curFramePos c),
              curFramePos := s.curFramePos + c.length }
          true (tr ++ [TraceEvent.allocBuffer (s.maxFrameSize + env.pad)]) ([] ++ c)
          hst hcur (by simp [hpos0])
          (Or.inr ⟨memcpyAt (List.replicate (s.maxFrameSize + env.pad) 0)
              s.curFramePos c, rfl, by simpa using htake2, hlen2⟩)
          hsize' hmax' hskip hmissing hdec
        refine ⟨s', tr', sent, d, ?_, hmem, ?_, hpos'⟩
        · rw [hred]
          exact heq
        · rw [htake]
          simp
      · have hred : processGo env
            ((c :: chunks').map (fun c => ReadEvent.chunk c false) ++
              [ReadEvent.chunk last true]) s pd tr =
            processGo env (chunks'.map (fun c => ReadEvent.chunk c false) ++
              [ReadEvent.chunk last true])
              { s with
                  frameBuffer := some (memcpyAt buf s.curFramePos c),
                  curFramePos := s.curFramePos + c.length }
              true tr := by
          simp [processGo, hsp, hfb]
        have htake2 : (memcpyAt buf s.curFramePos c).take (acc ++ c).length =
            acc ++ c := by
          rw [hposEq]
          have := memcpyAt_take_prefix buf acc c hpre
          simpa using this
        have hlen2 : (memcpyAt buf s.curFramePos c).length =
            s.maxFrameSize + env.pad := by
          rw [length_memcpyAt _ _ _ (by rw [hposEq, hlen]; omega), hlen]
        obtain ⟨s', tr', sent, d, heq, hmem, htake, hpos'⟩ := ih
          { s with
              frameBuffer := some (memcpyAt buf s.curFramePos c),
              curFramePos := s.curFramePos + c.length }
          true tr (acc ++ c)
          hst hcur (by simp [hposEq])
          (Or.inr ⟨memcpyAt buf s.curFramePos c, rfl, htake2, hlen2⟩)
          hsize' hmax' hskip hmissing hdec
        refine ⟨s', tr', sent, d, ?_, hmem, ?_, hpos'⟩
        · rw [hred]
          exact heq
        · rw [htake]
          simp

/-- C7, confirmed.  For every fragmentation of a single frame's bytes into
incomplete chunks followed by a frame-completing chunk, a run starting at
that frame with a zero fill position passes to decode a buffer whose frame
byte range is exactly the concatenation of the delivered chunks — the
original frame byte sequence, independent of the fragmentation pattern
(only the safety margin beyond the frame's declared size is altered, being
zeroed) — and the fill position is zero again afterwards. -/
theorem process_reassembles_any_fragmentation (env : Env) (s : GrabberState)
    (chunks : List (List Nat)) (last eb : List Nat) (f : InputFrame)
    (fs : List InputFrame)
    (hreads : env.reads = chunks.map (fun c => ReadEvent.chunk c false) ++
      [ReadEvent.chunk last true])
    (hst : s.frameStarted = true) (hcur : s.curPart = f :: fs)
    (hpos : s.curFramePos = 0) (hfb : s.frameBuffer = none)
    (halloc : env.allocOk = true)
    (hsize : f.size = (chunks.flatten ++ last).length)
    (hmax : (chunks.flatten ++ last).length ≤ s.maxFrameSize)
    (hskip : s.skipCount = 0) (hmissing : s.missingFrames = 0)
    (hdec : env.decodeAt s.decodeIdx = .frame)
    (henc : env.encode = .packet eb) :
    ∃ s' tr' sent d,
      thumb_grabber_process env s = some (env.writeStatus, s', tr') ∧
      TraceEvent.decodeCall sent d f ∈ tr' ∧
      sent.take f.size = chunks.flatten ++ last ∧
      s'.curFramePos = 0 := by
  rw [thumb_grabber_process, hreads]
  obtain ⟨s', tr', sent, d, heq, hmem, htake, hpos'⟩ :=
    processGo_reassembles env f fs last eb henc halloc chunks s false [] []
      hst hcur (by simpa using hpos) (Or.inl ⟨hfb, rfl⟩)
      (by simpa using hsize) (by simpa using hmax) hskip hmissing hdec
  refine ⟨s', tr', sent, d, heq, hmem, ?_, hpos'⟩
  rw [htake]
  simp

/-- Witness for process_reassembles_any_fragmentation: a 4-byte frame
delivered as chunks [1], [2, 3] and a final chunk [4] is decoded from the
exact reassembled sequence [1, 2, 3, 4]. -/
theorem process_reassembles_any_fragmentation_witness :
    ∃ s' tr' sent d,
      thumb_grabber_process
        ⟨2, [.chunk [1] false, .chunk [2, 3] false, .chunk [4] true],
          fun _ => DecodeResult.frame, .packet [8], .ok, true, []⟩
        ⟨[⟨4, 10, 0, true⟩], [], 0, true, true, 0, 0, 6, none, 0, 0, 0⟩ =
        some (.ok, s', tr') ∧
      TraceEvent.decodeCall sent d ⟨4, 10, 0, true⟩ ∈ tr' ∧
      sent.take 4 = [1, 2, 3, 4] ∧
      s'.curFramePos = 0 :=
  process_reassembles_any_fragmentation
    ⟨2, [.chunk [1] false, .chunk [2, 3] false, .chunk [4] true],
      fun _ => DecodeResult.frame, .packet [8], .ok, true, []⟩
    ⟨[⟨4, 10, 0, true⟩], [], 0, true, true, 0, 0, 6, none, 0, 0, 0⟩
    [[1], [2, 3]] [4] [8] ⟨4, 10, 0, true⟩ []
    (by decide) rfl rfl rfl rfl rfl (by decide) (by decide) rfl rfl rfl rfl

end ThumbGrabber
